import Mathlib

/-!
# Verification of the autocrop core (src/src/App.tsx)

This file gives a shallow embedding of the pure computational core of the
autocrop application and proves the specification claims about it.

Modelling conventions:
* JavaScript strings are `List Char`; `toLowerCase`, `split`, `startsWith`,
  `endsWith` are modelled by the functions `jsToLower`, `jsSplit`, … below.
* The JavaScript numbers stored in `CropBounds` are either finite integers or
  `±Infinity` (the initial values of the bounds scan); they are modelled by the
  three-constructor type `JNum`.  `Math.min`/`Math.max` on such values are
  `jmin`/`jmax`.
* Pixel buffers (`Uint8ClampedArray`) are `List Nat`.  Reading a typed array
  out of range yields `undefined`, and storing `undefined` into a
  `Uint8ClampedArray` stores `0`; storing a number clamps it into `0..255`
  (`clampByte`); storing at a negative or out-of-range index is a no-op.
  `readI`/`setI` encode exactly this.
* External collaborators (image decode/encode via canvas, object URLs, the zip
  container library, the DOM) are outside the embedding: the decode step is
  represented by its synchronously computed data, the encode step by the
  `ImageFile` handed to it, and zip building by the list of (entry name,
  content) pairs handed to the zip library.  The `url` field of the second
  `App.tsx` version is such an external handle and is omitted.
* Fallible code returns `Except`: a thrown JavaScript exception (or a promise
  rejection happening before any state is published) is `.error`.
-/

set_option maxHeartbeats 1000000

/-- A JavaScript number as stored in `CropBounds`: a finite integer, or one of
the two infinities used as initial values by `getCropBounds`.  (`NaN` cannot
reach a `CropBounds` in this program.) -/
inductive JNum where
  | negInf : JNum
  | fin : Int → JNum
  | posInf : JNum
deriving DecidableEq

/-- The embedding of a finite nonnegative pixel coordinate. -/
def jnum (n : Nat) : JNum := JNum.fin (n : Int)

/-- JavaScript `a <= b` on non-`NaN` numbers. -/
def jle : JNum → JNum → Bool
  | JNum.negInf, _ => true
  | _, JNum.posInf => true
  | JNum.fin a, JNum.fin b => a ≤ b
  | JNum.posInf, _ => false
  | JNum.fin _, JNum.negInf => false

/-- JavaScript `Math.min` on non-`NaN` numbers. -/
def jmin (a b : JNum) : JNum := if jle a b then a else b

/-- JavaScript `Math.max` on non-`NaN` numbers. -/
def jmax (a b : JNum) : JNum := if jle b a then a else b

/-- `interface CropBounds` from App.tsx. -/
structure CropBounds where
  minVisiblePixelX : JNum
  maxVisiblePixelX : JNum
  minVisiblePixelY : JNum
  maxVisiblePixelY : JNum
deriving DecidableEq

/-- `interface ImageFile` from App.tsx (the `url` object-URL handle of the
second version is an external resource and not modelled). -/
structure ImageFile where
  name : List Char
  width : Nat
  height : Nat
  data : List Nat
  cropBounds : CropBounds
deriving DecidableEq

/-- A zip entry as surfaced by the external zip library. -/
structure JSZipObject where
  name : List Char
  dir : Bool
deriving DecidableEq

/-! ## String primitives -/

/-- JavaScript `String.prototype.toLowerCase` (on the ASCII names this app
handles, `Char.toLower` agrees with it). -/
def jsToLower (s : List Char) : List Char := s.map Char.toLower

/-- Accumulator-passing worker for `jsSplit`. -/
def jsSplitAux (sep : Char → Bool) : List Char → List Char → List (List Char)
  | [], cur => [cur.reverse]
  | c :: rest, cur =>
    if sep c then cur.reverse :: jsSplitAux sep rest []
    else jsSplitAux sep rest (c :: cur)

/-- JavaScript `String.prototype.split` against a single-character-class
regular expression: splits at every separator character, keeping empty
segments, and returns `[""]` on the empty string. -/
def jsSplit (sep : Char → Bool) (s : List Char) : List (List Char) :=
  jsSplitAux sep s []

/-- The character class of the regex `/\/|\\/` used to split paths. -/
def isPathSep (c : Char) : Bool := c = '/' || c = '\\'

/-- The character class of splitting on `"."`. -/
def isDotChar (c : Char) : Bool := c = '.'

/-- `….split(sep).slice(-1)[0]` — the last split segment (`jsSplit` never
returns an empty list, so the default is never used); also `….pop() ?? ""`. -/
def lastSegment (sep : Char → Bool) (s : List Char) : List Char :=
  (jsSplit sep s).getLastD []

/-- JavaScript `segment.startsWith(".")`. -/
def startsWithDot (s : List Char) : Bool := List.isPrefixOf ['.'] s

/-- JavaScript `s.endsWith(t)`. -/
def jsEndsWith (s t : List Char) : Bool := List.isSuffixOf t s

/-- `const IMAGE_EXTENSIONS = [".png", ".jpg", ".jpeg", ".svg"]`. -/
def IMAGE_EXTENSIONS : List (List Char) :=
  List.map String.data [ ".png" , ".jpg" , ".jpeg" , ".svg" ]

/-- The string `".zip"`. -/
def zipExt : List Char := ".zip".data

/-- `function isZipFileName(name)` from App.tsx. -/
def isZipFileName (name : List Char) : Bool :=
  let lowerCaseName := jsToLower name
  if lowerCaseName.isEmpty || startsWithDot (lastSegment isPathSep lowerCaseName) then
    false
  else
    jsEndsWith lowerCaseName zipExt

/-- `function isImageFileName(name)` from App.tsx. -/
def isImageFileName (name : List Char) : Bool :=
  let lowerCaseName := jsToLower name
  if lowerCaseName.isEmpty || startsWithDot (lastSegment isPathSep lowerCaseName) then
    false
  else
    IMAGE_EXTENSIONS.any (fun extension => jsEndsWith lowerCaseName extension)

/-- `function getDotlessExtension(name)`:
`name.toLowerCase().split(".").pop() ?? ""`. -/
def getDotlessExtension (name : List Char) : List Char :=
  lastSegment isDotChar (jsToLower name)

/-- `function isValidNonNegativeInteger(s)`: `/^\d+$/.test(s)` (one or more
ASCII decimal digits). -/
def isValidNonNegativeInteger (s : List Char) : Bool :=
  !s.isEmpty && s.all (fun c => (decide ('0' ≤ c)) && (decide (c ≤ '9')))

/-- JavaScript `a < b` on strings: lexicographic comparison by code units. -/
def jsStrLt : List Char → List Char → Bool
  | [], [] => false
  | [], _ :: _ => true
  | _ :: _, [] => false
  | a :: as, b :: bs => if a < b then true else if b < a then false else jsStrLt as bs

/-- `function compareStrings(a, b)` from App.tsx. -/
def compareStrings (a b : List Char) : Int :=
  if jsStrLt a b then -1 else if jsStrLt b a then 1 else 0

/-! ## Zip entry handling -/

/-- `function getImageEntries(zip)`: keeps the non-directory entries whose
names pass `isImageFileName` (in iteration order; the final `slice()` copy is
the identity on the value). -/
def getImageEntries (entries : List JSZipObject) : List JSZipObject :=
  entries.filter (fun zipEntry => !zipEntry.dir && isImageFileName zipEntry.name)

/-- The string `"test."`. -/
def testDot : List Char := "test.".data

/-- The synchronous guard of `function loadImageFile(zipEntry)`: throws
`"Invalid image file type"` unless `isImageFileName("test." + ext)`; on
success the decode continues externally with the blob MIME type
`"image/" + ext.toLowerCase()`, which we return. -/
def loadImageFile (zipEntry : JSZipObject) : Except (List Char) (List Char) :=
  let dotlessExtension := getDotlessExtension zipEntry.name
  if !isImageFileName (testDot ++ dotlessExtension) then
    Except.error ( "Invalid image file type. Name: ".data ++ zipEntry.name)
  else
    Except.ok ( "image/".data ++ jsToLower dotlessExtension)

/-! ## Bounds detection -/

/-- `function getCropBounds({width, height, data})` from App.tsx: scan all
pixels (x outer, y inner), a pixel counts as visible iff its alpha byte is not
exactly `0` (an out-of-range read yields `undefined`, which is `!== 0` and so
also counts), and track the min/max visible coordinates starting from
`Infinity`/`-Infinity`. -/
def getCropBounds (width height : Nat) (data : List Nat) : CropBounds :=
  (List.range width).foldl
    (fun acc x =>
      (List.range height).foldl
        (fun acc2 y =>
          let index := (y * width + x) * 4
          if data[index + 3]? = some 0 then acc2
          else
            { minVisiblePixelX := jmin acc2.minVisiblePixelX (jnum x)
              maxVisiblePixelX := jmax acc2.maxVisiblePixelX (jnum x)
              minVisiblePixelY := jmin acc2.minVisiblePixelY (jnum y)
              maxVisiblePixelY := jmax acc2.maxVisiblePixelY (jnum y) })
        acc)
    { minVisiblePixelX := JNum.posInf
      maxVisiblePixelX := JNum.negInf
      minVisiblePixelY := JNum.posInf
      maxVisiblePixelY := JNum.negInf }

/-! ## Crop/pad compositing -/

/-- Storing a number into a `Uint8ClampedArray` clamps it to `0..255` (our
buffer values are naturals, so only the upper clamp is relevant). -/
def clampByte (v : Nat) : Nat := min v 255

/-- Reading `data[i]` from a typed array at an `Int` index: out-of-range and
negative reads give `undefined`, which the subsequent clamped store turns
into `0`. -/
def readI (data : List Nat) (i : Int) : Nat :=
  if 0 ≤ i then data.getD i.toNat 0 else 0

/-- Storing `arr[i] = v` on a typed array at an `Int` index: negative and
out-of-range stores are silently ignored. -/
def setI (arr : List Nat) (i : Int) (v : Nat) : List Nat :=
  if 0 ≤ i then arr.set i.toNat v else arr

/-- The error thrown by `new Uint8ClampedArray(len)` for an invalid length. -/
def rangeErrorMsg : List Char := "RangeError: invalid typed array length".data

/-- The error thrown by `new ImageData(data, sw, sh)` when `sw`/`sh` is zero
or does not match the buffer length. -/
def indexSizeErrorMsg : List Char := "IndexSizeError: invalid ImageData size".data

/-- `function cropImageAndAddPadding(imageFile, transparentPadding)` from
App.tsx (second version, which ends by building an `ImageData` of the padded
buffer; the canvas `toBlob`/object-URL steps are external encode steps and
assumed to succeed).

`transparentPadding` is a `Nat`: the only call site passes
`Number.parseInt` of a string of decimal digits, guarded by
`isValidNonNegativeInteger`.

For bounds that are not four finite numbers, the JavaScript code also fails
before resolving: with the empty-bounds sentinel
(`minX = minY = Infinity`, `maxX = maxY = -Infinity`), the computed buffer
length is `Infinity` and `new Uint8ClampedArray` throws a `RangeError`.
(Other mixed-infinity patterns cannot be produced by this program; they are
mapped to the same error.) -/
def cropImageAndAddPadding (imageFile : ImageFile) (transparentPadding : Nat) :
    Except (List Char) ImageFile :=
  match imageFile.cropBounds with
  | { minVisiblePixelX := JNum.fin minVisiblePixelX
      maxVisiblePixelX := JNum.fin maxVisiblePixelX
      minVisiblePixelY := JNum.fin minVisiblePixelY
      maxVisiblePixelY := JNum.fin maxVisiblePixelY } =>
    let unpaddedWidth : Int := maxVisiblePixelX - minVisiblePixelX + 1
    let unpaddedHeight : Int := maxVisiblePixelY - minVisiblePixelY + 1
    let paddedWidth : Int := unpaddedWidth + 2 * transparentPadding
    let paddedHeight : Int := unpaddedHeight + 2 * transparentPadding
    if paddedWidth * paddedHeight * 4 < 0 then
      Except.error rangeErrorMsg
    else
      let paddedData :=
        (List.range unpaddedWidth.toNat).foldl
          (fun arr (cropRectX : Nat) =>
            (List.range unpaddedHeight.toNat).foldl
              (fun arr2 (cropRectY : Nat) =>
                let sourceX : Int := minVisiblePixelX + (cropRectX : Int)
                let sourceY : Int := minVisiblePixelY + (cropRectY : Int)
                let sourceIndex : Int := (sourceY * (imageFile.width : Int) + sourceX) * 4
                let destX : Int := (transparentPadding : Int) + (cropRectX : Int)
                let destY : Int := (transparentPadding : Int) + (cropRectY : Int)
                let destIndex : Int := (destY * paddedWidth + destX) * 4
                setI (setI (setI (setI arr2
                  destIndex (clampByte (readI imageFile.data sourceIndex)))
                  (destIndex + 1) (clampByte (readI imageFile.data (sourceIndex + 1))))
                  (destIndex + 2) (clampByte (readI imageFile.data (sourceIndex + 2))))
                  (destIndex + 3) (clampByte (readI imageFile.data (sourceIndex + 3))))
              arr)
          (List.replicate (paddedWidth * paddedHeight * 4).toNat 0)
      if paddedWidth ≤ 0 ∨ paddedHeight ≤ 0 then
        Except.error indexSizeErrorMsg
      else
        Except.ok
          { name := imageFile.name
            width := paddedWidth.toNat
            height := paddedHeight.toNat
            data := paddedData
            cropBounds :=
              { minVisiblePixelX := JNum.fin (transparentPadding : Int)
                maxVisiblePixelX := JNum.fin ((transparentPadding : Int) + unpaddedWidth - 1)
                minVisiblePixelY := JNum.fin (transparentPadding : Int)
                maxVisiblePixelY := JNum.fin ((transparentPadding : Int) + unpaddedHeight - 1) } }
  | _ => Except.error rangeErrorMsg

/-- `function cropImagesAndAddPadding(files, transparentPadding)`:
`Promise.all(files.map(f => cropImageAndAddPadding(f, p)))` — the map
evaluates the items left to right and the first synchronous throw aborts the
whole batch with that error; on success the results are in input order. -/
def cropImagesAndAddPadding (files : List ImageFile) (transparentPadding : Nat) :
    Except (List Char) (List ImageFile) :=
  match files with
  | [] => Except.ok []
  | f :: rest =>
    match cropImageAndAddPadding f transparentPadding with
    | Except.error e => Except.error e
    | Except.ok c =>
      match cropImagesAndAddPadding rest transparentPadding with
      | Except.error e => Except.error e
      | Except.ok cs => Except.ok (c :: cs)

/-! ## Application state and handlers -/

/-- The component state of the second `App.tsx` version. -/
structure AppState where
  uploadedFileName : List Char
  originalImageFiles : List ImageFile
  shouldHideOriginalPreviews : Bool
  transparentPaddingInputValue : List Char
  croppedImageFiles : List ImageFile
  shouldHideCroppedPreviews : Bool
deriving DecidableEq

/-- `Number.parseInt(s, 10)` restricted to the strings of decimal digits that
pass `isValidNonNegativeInteger` (the only strings it is applied to). -/
def parseIntDigits (s : List Char) : Nat :=
  s.foldl (fun acc c => acc * 10 + (c.toNat - '0'.toNat)) 0

/-- `App.onCropButtonClick` (second version): returns unchanged state if the
guard fails; otherwise runs the batch crop and publishes the result via
`setState`.  A synchronous throw inside the batch propagates out of the
handler before any `setState`, so no state change is published (`.error`). -/
def onCropButtonClick (st : AppState) : Except (List Char) AppState :=
  if ¬(st.originalImageFiles.length > 0 ∧
      isValidNonNegativeInteger st.transparentPaddingInputValue = true) then
    Except.ok st
  else
    match cropImagesAndAddPadding st.originalImageFiles
        (parseIntDigits st.transparentPaddingInputValue) with
    | Except.error e => Except.error e
    | Except.ok cropped => Except.ok { st with croppedImageFiles := cropped }

/-- `function zipImageFiles(files)`: adds one entry per file, named by the
file's `name`, whose content is the (externally encoded) file. -/
def zipImageFiles (files : List ImageFile) : List (List Char × ImageFile) :=
  files.map (fun file => (file.name, file))

/-- The replacement `uploadedFileName.replace(/\.[^.]+$/, repl)`: if the name
has a final extension (a dot followed by one or more non-dot characters at
the end), replace it by `repl`; otherwise return the name unchanged. -/
def jsReplaceExt (s repl : List Char) : List Char :=
  let r := s.reverse
  let ext := r.takeWhile (fun c => ¬ c = '.')
  let rest := r.dropWhile (fun c => ¬ c = '.')
  if ext.isEmpty then s
  else
    match rest with
    | '.' :: stemRev => stemRev.reverse ++ repl
    | _ => s

/-- The string `".cropped.zip"`. -/
def croppedZipExt : List Char := ".cropped.zip".data

/-- The replacement `uploadedFileName.replace(/\.[zZ][iI][pP]$/, ".cropped.zip")`. -/
def jsReplaceZipExt (s : List Char) : List Char :=
  match s.reverse with
  | c1 :: c2 :: c3 :: c4 :: rest =>
    if (c1 = 'p' ∨ c1 = 'P') ∧ (c2 = 'i' ∨ c2 = 'I') ∧ (c3 = 'z' ∨ c3 = 'Z') ∧ c4 = '.' then
      rest.reverse ++ croppedZipExt
    else s
  | _ => s

/-- The outcome of `App.onDownloadButtonClick` (second version), as handed to
the external download/zip collaborators. -/
inductive DownloadAction where
  | noAction : DownloadAction
  | singleImage : List Char → List Char → ImageFile → DownloadAction
  | zipDownload : List (List Char × ImageFile) → List Char → DownloadAction
deriving DecidableEq

/-- `App.onDownloadButtonClick` (second version): no-op on an empty batch;
a single encoded image when the upload was a bare image (MIME type
`"image/" + ext.toLowerCase()`, name `replace(/\.[^.]+$/, ".cropped."+ext)`);
otherwise a zip of all cropped files named
`replace(/\.[zZ][iI][pP]$/, ".cropped.zip")`. -/
def onDownloadButtonClick (uploadedFileName : List Char)
    (croppedImageFiles : List ImageFile) : DownloadAction :=
  if croppedImageFiles.length = 0 then
    DownloadAction.noAction
  else if isImageFileName uploadedFileName then
    match croppedImageFiles with
    | [] => DownloadAction.noAction
    | file :: _ =>
      let dotlessExtension := getDotlessExtension uploadedFileName
      DownloadAction.singleImage
        ( "image/".data ++ jsToLower dotlessExtension)
        (jsReplaceExt uploadedFileName ( ".cropped.".data ++ jsToLower dotlessExtension))
        file
  else
    DownloadAction.zipDownload (zipImageFiles croppedImageFiles)
      (jsReplaceZipExt uploadedFileName)

/-- The sort applied in `App.onZipFileUpload` (second version):
`unsortedImageFiles.sort((a, b) => compareStrings(a.name, b.name))`.
`Array.prototype.sort` with a consistent comparator produces a permutation of
the input ordered by the comparator (and is stable, like merge sort). -/
def onZipFileUploadSort (unsortedImageFiles : List ImageFile) : List ImageFile :=
  unsortedImageFiles.mergeSort (fun a b => decide (compareStrings a.name b.name ≤ 0))

/-- Modelled from the spec text of §4.4 (`isArchiveName`): reject when the
last path segment of the lower-cased name is empty or starts with `.`,
otherwise test for the `.zip` suffix. -/
def isArchiveNameSpec (name : List Char) : Bool :=
  let l := jsToLower name
  let seg := lastSegment isPathSep l
  if seg.isEmpty || startsWithDot seg then false else jsEndsWith l zipExt

/-- Modelled from the spec text of §4.4 (`isImageName`): same rejection,
otherwise test for one of the four image suffixes. -/
def isImageNameSpec (name : List Char) : Bool :=
  let l := jsToLower name
  let seg := lastSegment isPathSep l
  if seg.isEmpty || startsWithDot seg then false
  else IMAGE_EXTENSIONS.any (fun extension => jsEndsWith l extension)

/-! ## Helper notions used by the proofs -/

/-- All pixel coordinates of a `width × height` image, in the scan order of
`getCropBounds` and `cropImageAndAddPadding` (x outer, y inner). -/
def pairList (w h : Nat) : List (Nat × Nat) :=
  (List.range w).flatMap (fun x => (List.range h).map (fun y => (x, y)))

/-- Pixel `(x, y)` is in range and its alpha byte is not exactly zero — the
visibility test of `getCropBounds` (out-of-range reads are `undefined`, which
is `!== 0`; under the length invariant they do not occur). -/
def visiblePixel (w h : Nat) (d : List Nat) (x y : Nat) : Prop :=
  x < w ∧ y < h ∧ ¬ d[(y * w + x) * 4 + 3]? = some 0

instance (w h : Nat) (d : List Nat) (x y : Nat) :
    Decidable (visiblePixel w h d x y) := by
  rw [visiblePixel]
  infer_instance

/-- The visible pixels of an image, in scan order. -/
def visList (w h : Nat) (d : List Nat) : List (Nat × Nat) :=
  (pairList w h).filter (fun q => decide (¬ d[(q.2 * w + q.1) * 4 + 3]? = some 0))

/-- Folding `Math.min` over a list of pixel coordinates. -/
def jminFoldNat (xs : List Nat) (a : JNum) : JNum :=
  xs.foldl (fun m x => jmin m (jnum x)) a

/-- Folding `Math.max` over a list of pixel coordinates. -/
def jmaxFoldNat (xs : List Nat) (a : JNum) : JNum :=
  xs.foldl (fun m x => jmax m (jnum x)) a

/-- Proof-side normal form of the buffer built by `cropImageAndAddPadding`
for finite in-range bounds `(mX, MX, mY, MY)` with `tw = MX - mX + 1` and
`th = MY - mY + 1`: the zero buffer of the padded size overwritten by the
flat list of the four channel writes of every copied pixel. -/
def croppedData (w : Nat) (d : List Nat) (mX mY tw th p : Nat) : List Nat :=
  ((pairList tw th).flatMap (fun q =>
    (List.range 4).map (fun ch =>
      (((p + q.2) * (tw + 2 * p) + (p + q.1)) * 4 + ch,
       clampByte (d.getD (((mY + q.2) * w + (mX + q.1)) * 4 + ch) 0))))).foldl
    (fun a r => a.set r.1 r.2)
    (List.replicate ((tw + 2 * p) * (th + 2 * p) * 4) 0)

/-! ## Properties of the string primitives -/

theorem takeWhile_append_of_exists {p : Char → Bool} {xs : List Char} (ys : List Char)
    (h : ∃ x ∈ xs, p x = false) :
    (xs ++ ys).takeWhile p = xs.takeWhile p := by
  rw [List.takeWhile_append]
  split
  · rename_i hlen
    exfalso
    have hpre := List.takeWhile_prefix (l := xs) (p := p)
    have heq : xs.takeWhile p = xs := hpre.eq_of_length hlen
    obtain ⟨x, hx, hpx⟩ := h
    have : p x = true := List.mem_takeWhile_imp (by rw [heq]; exact hx)
    rw [hpx] at this
    exact Bool.false_ne_true this
  · rfl

theorem takeWhile_append_of_all {p : Char → Bool} {xs : List Char} (ys : List Char)
    (h : ∀ x ∈ xs, p x = true) :
    (xs ++ ys).takeWhile p = xs ++ ys.takeWhile p := by
  have heq : xs.takeWhile p = xs := List.takeWhile_eq_self_iff.mpr h
  rw [List.takeWhile_append, heq]
  simp

theorem jsSplitAux_ne_nil (sep : Char → Bool) (l cur : List Char) :
    jsSplitAux sep l cur ≠ [] := by
  induction l generalizing cur with
  | nil => simp [jsSplitAux]
  | cons c rest ih =>
    rw [jsSplitAux]
    split
    · simp
    · exact ih _

/-- The last segment produced by `jsSplit` is the maximal separator-free
suffix when a separator occurs, and the whole string otherwise. -/
theorem jsSplitAux_getLastD (sep : Char → Bool) (l : List Char) :
    ∀ cur d, (jsSplitAux sep l cur).getLastD d =
      if l.any sep then (l.reverse.takeWhile (fun c => !sep c)).reverse
      else cur.reverse ++ l := by
  induction l with
  | nil => intro cur d; simp [jsSplitAux]
  | cons c rest ih =>
    intro cur d
    by_cases hc : sep c = true
    · rw [jsSplitAux, if_pos hc, List.getLastD_cons, ih]
      have hany : (c :: rest).any sep = true := by simp [hc]
      rw [if_pos hany]
      by_cases hrest : rest.any sep = true
      · rw [if_pos hrest]
        obtain ⟨x, hx, hpx⟩ := List.any_eq_true.mp hrest
        have hx2 : ∃ y ∈ rest.reverse, (fun c => !sep c) y = false := by
          exact ⟨x, List.mem_reverse.mpr hx, by simp [hpx]⟩
        simp only [List.reverse_cons]
        rw [takeWhile_append_of_exists _ hx2]
      · rw [if_neg hrest]
        have hall : ∀ x ∈ rest.reverse, (fun c => !sep c) x = true := by
          intro x hx
          have hfx : sep x = false := by
            by_contra hpx
            exact hrest (List.any_eq_true.mpr
              ⟨x, List.mem_reverse.mp hx, Bool.not_eq_false _ |>.mp hpx⟩)
          simp [hfx]
        simp only [List.reverse_cons]
        rw [takeWhile_append_of_all _ hall]
        have htc : List.takeWhile (fun c => !sep c) [c] = [] := by
          simp [List.takeWhile_cons, hc]
        rw [htc, List.append_nil]
        simp
    · have hc2 : sep c = false := Bool.eq_false_iff.mpr hc
      rw [jsSplitAux, if_neg (by rw [hc2]; exact Bool.false_ne_true), ih]
      have hany : (c :: rest).any sep = rest.any sep := by simp [hc2]
      rw [hany]
      by_cases hrest : rest.any sep = true
      · rw [if_pos hrest, if_pos hrest]
        obtain ⟨x, hx, hpx⟩ := List.any_eq_true.mp hrest
        have hx2 : ∃ y ∈ rest.reverse, (fun c => !sep c) y = false :=
          ⟨x, List.mem_reverse.mpr hx, by simp [hpx]⟩
        simp only [List.reverse_cons]
        rw [takeWhile_append_of_exists _ hx2]
      · rw [if_neg hrest, if_neg hrest]
        simp

theorem lastSegment_eq (sep : Char → Bool) (l : List Char) :
    lastSegment sep l =
      if l.any sep then (l.reverse.takeWhile (fun c => !sep c)).reverse
      else l := by
  rw [lastSegment, jsSplit, jsSplitAux_getLastD]
  split <;> simp

/-- If the last segment is empty but the string is not, the string ends with a
separator character. -/
theorem lastSegment_eq_nil (sep : Char → Bool) (l : List Char)
    (h : lastSegment sep l = []) (hl : l ≠ []) :
    ∃ c, l.getLast? = some c ∧ sep c = true := by
  rw [lastSegment_eq] at h
  obtain ⟨c, rest, hrev⟩ : ∃ c rest, l.reverse = c :: rest := by
    cases hrev : l.reverse with
    | nil => exact absurd (by simpa using congrArg List.reverse hrev) hl
    | cons c rest => exact ⟨c, rest, rfl⟩
  have hlast : l.getLast? = some c := by
    rw [← List.head?_reverse, hrev]; rfl
  refine ⟨c, hlast, ?_⟩
  by_contra hsep
  have hsep2 : sep c = false := Bool.eq_false_iff.mpr hsep
  split at h
  · rw [hrev, List.takeWhile_cons, if_pos (by simp [hsep2])] at h
    simp at h
  · rename_i hany
    exact hl h

/-- `s.endsWith(t)` with `t` nonempty forces the last characters to agree. -/
theorem jsEndsWith_getLast? (l t : List Char) (h : jsEndsWith l t = true)
    (ht : t ≠ []) : l.getLast? = t.getLast? := by
  rw [jsEndsWith, List.isSuffixOf_iff_suffix] at h
  obtain ⟨pre, hpre⟩ := h
  rw [← hpre, List.getLast?_append]
  cases htl : t.getLast? with
  | none => exact absurd (List.getLast?_eq_none_iff.mp htl) ht
  | some c => rfl

theorem jsEndsWith_ne_nil (l t : List Char) (h : jsEndsWith l t = true)
    (ht : t ≠ []) : l ≠ [] := by
  rw [jsEndsWith, List.isSuffixOf_iff_suffix] at h
  obtain ⟨pre, hpre⟩ := h
  intro hl
  rw [hl] at hpre
  exact ht (List.append_eq_nil.mp hpre).2

/-! ## C6: the name classifier predicates -/

theorem lastSegment_nil_endsWith_false (l t : List Char)
    (hseg : lastSegment isPathSep l = []) (ht : t ≠ [])
    (htc : ∀ c, t.getLast? = some c → isPathSep c = false) :
    jsEndsWith l t = false := by
  by_cases hl : l = []
  · subst hl
    cases t with
    | nil => exact absurd rfl ht
    | cons c cs =>
      rw [jsEndsWith]
      by_contra hend
      have := List.isSuffixOf_iff_suffix.mp (Bool.not_eq_false _ |>.mp hend)
      obtain ⟨pre, hpre⟩ := this
      simp at hpre
  · by_contra hend
    have hend2 := Bool.not_eq_false _ |>.mp hend
    obtain ⟨c, hc, hsep⟩ := lastSegment_eq_nil isPathSep l hseg hl
    have hlast := jsEndsWith_getLast? l t hend2 ht
    rw [hc] at hlast
    have := htc c hlast.symm
    rw [this] at hsep
    exact Bool.false_ne_true hsep

theorem getLast?_zipExt : zipExt.getLast? = some 'p' := rfl

theorem isZipFileName_eq_spec (name : List Char) :
    isZipFileName name = isArchiveNameSpec name := by
  rw [isZipFileName, isArchiveNameSpec]
  by_cases h1 : jsToLower name = []
  · rw [h1]
    rfl
  · have h1e : (jsToLower name).isEmpty = false := by
      simp [List.isEmpty_iff, h1]
    by_cases h2 : lastSegment isPathSep (jsToLower name) = []
    · have h2e : (lastSegment isPathSep (jsToLower name)).isEmpty = true := by
        simp [h2]
      have hsd : startsWithDot (lastSegment isPathSep (jsToLower name)) = false := by
        rw [h2]
        rfl
      have hzf : jsEndsWith (jsToLower name) zipExt = false := by
        refine lastSegment_nil_endsWith_false _ _ h2 (by decide) ?_
        intro c hc
        rw [getLast?_zipExt] at hc
        cases hc
        decide
      simp [h1e, h2e, hsd, hzf]
    · have h2e : (lastSegment isPathSep (jsToLower name)).isEmpty = false := by
        simp [List.isEmpty_iff, h2]
      simp [h1e, h2e]

theorem isImageFileName_eq_spec (name : List Char) :
    isImageFileName name = isImageNameSpec name := by
  rw [isImageFileName, isImageNameSpec]
  by_cases h1 : jsToLower name = []
  · rw [h1]
    rfl
  · have h1e : (jsToLower name).isEmpty = false := by
      simp [List.isEmpty_iff, h1]
    by_cases h2 : lastSegment isPathSep (jsToLower name) = []
    · have h2e : (lastSegment isPathSep (jsToLower name)).isEmpty = true := by
        simp [h2]
      have hsd : startsWithDot (lastSegment isPathSep (jsToLower name)) = false := by
        rw [h2]
        rfl
      have himg : IMAGE_EXTENSIONS.any
          (fun extension => jsEndsWith (jsToLower name) extension) = false := by
        rw [List.any_eq_false]
        intro e he
        have hlast : ∃ c, e.getLast? = some c ∧ isPathSep c = false := by
          simp only [IMAGE_EXTENSIONS, List.map, List.mem_cons, List.mem_singleton] at he
          rcases he with h | h | h | h | h <;> first
            | (rw [h]; exact ⟨'g', rfl, by decide⟩)
            | cases h
        obtain ⟨c, hc, hcsep⟩ := hlast
        rw [Bool.not_eq_true]
        refine lastSegment_nil_endsWith_false _ _ h2 ?_ ?_
        · intro hnil
          rw [hnil] at hc
          simp at hc
        · intro d hd
          rw [hc] at hd
          cases hd
          exact hcsep
      simp [h1e, h2e, hsd, himg]
    · have h2e : (lastSegment isPathSep (jsToLower name)).isEmpty = false := by
        simp [List.isEmpty_iff, h2]
      simp [h1e, h2e]

/-- C6: `isZipFileName` and `isImageFileName` behave exactly as the spec's
`isArchiveName`/`isImageName`: false when the lower-cased name's last path
segment is empty or starts with `.`, otherwise a case-insensitive suffix test
against `.zip` resp. the four image extensions; in particular the five listed
example inputs evaluate as claimed. -/
theorem claimC6 (name : List Char) :
    isZipFileName name = isArchiveNameSpec name ∧
    isImageFileName name = isImageNameSpec name ∧
    isZipFileName ( ".hidden.zip".data) = false ∧
    isZipFileName ( "folder/.hidden.zip".data) = false ∧
    isZipFileName ( "a.ZIP".data) = true ∧
    isImageFileName ( "a.b.PNG".data) = true ∧
    isImageFileName ( "noext".data) = false :=
  ⟨isZipFileName_eq_spec name, isImageFileName_eq_spec name,
    by decide, by decide, by decide, by decide, by decide⟩

/-! ## C7: the dotless extension -/

/-- C7 counterexample: `"noext"` contains no `.`, yet `getDotlessExtension`
returns `"noext"`, not the empty string claimed by the spec. -/
theorem claimC7_counterexample :
    ( "noext".data).all (fun c => !isDotChar c) = true ∧
    getDotlessExtension ( "noext".data) = "noext".data ∧
    ¬ getDotlessExtension ( "noext".data) = ([] : List Char) := by
  refine ⟨by decide, by decide, by decide⟩

/-- C7 (amended): `getDotlessExtension` lower-cases the name and returns its
final `.`-separated segment — the maximal dot-free suffix when the name
contains a `.`, and the *whole lower-cased name* (not the empty string) when
it contains no `.`. -/
theorem claimC7_amended (name : List Char) :
    getDotlessExtension name = lastSegment isDotChar (jsToLower name) ∧
    ((jsToLower name).any isDotChar = false →
      getDotlessExtension name = jsToLower name) ∧
    ((jsToLower name).any isDotChar = true →
      getDotlessExtension name =
        ((jsToLower name).reverse.takeWhile (fun c => !isDotChar c)).reverse) := by
  refine ⟨rfl, ?_, ?_⟩
  · intro h
    rw [getDotlessExtension, lastSegment_eq, if_neg (by rw [h]; exact Bool.false_ne_true)]
  · intro h
    rw [getDotlessExtension, lastSegment_eq, if_pos h]

/-- C7 amended-claim witness at concrete inputs. -/
theorem claimC7_amended_witness :
    (jsToLower ( "noext".data)).any isDotChar = false ∧
    getDotlessExtension ( "noext".data) = jsToLower ( "noext".data) :=
  ⟨by decide, (claimC7_amended ( "noext".data)).2.1 (by decide)⟩

/-! ## C9: padding validation -/

/-- C9: the padding text is accepted iff it consists of one or more decimal
digits, and an invalid padding text makes `onCropButtonClick` return the
state unchanged (no exception, nothing computed). -/
theorem claimC9 (s : List Char) (st : AppState) :
    (isValidNonNegativeInteger s = true ↔ s ≠ [] ∧ ∀ c ∈ s, '0' ≤ c ∧ c ≤ '9') ∧
    (st.transparentPaddingInputValue = s → isValidNonNegativeInteger s = false →
      onCropButtonClick st = Except.ok st) := by
  constructor
  · rw [isValidNonNegativeInteger]
    simp [List.all_eq_true, List.isEmpty_iff]
  · intro hs hinvalid
    rw [onCropButtonClick, if_pos]
    intro ⟨_, hvalid⟩
    rw [hs, hinvalid] at hvalid
    exact Bool.false_ne_true hvalid

/-- C9 witness: the padding text `"1a"` is rejected and blocks the crop
action on a concrete state. -/
theorem claimC9_witness :
    isValidNonNegativeInteger ( "1a".data) = false ∧
    onCropButtonClick
      { uploadedFileName := []
        originalImageFiles := []
        shouldHideOriginalPreviews := false
        transparentPaddingInputValue := "1a".data
        croppedImageFiles := []
        shouldHideCroppedPreviews := false } =
    Except.ok
      { uploadedFileName := []
        originalImageFiles := []
        shouldHideOriginalPreviews := false
        transparentPaddingInputValue := "1a".data
        croppedImageFiles := []
        shouldHideCroppedPreviews := false } :=
  ⟨by decide, (claimC9 ( "1a".data) _).2 rfl (by decide)⟩

/-! ## Character-level facts about `toLowerCase` -/

theorem char_toNat_ofNatAux (n : Nat) (h : n.isValidChar) :
    (Char.ofNatAux n h).toNat = n := by
  simp [Char.ofNatAux, Char.toNat, UInt32.toNat]

/-- `toLowerCase` can only produce a character outside `a`–`z` from that very
character. -/
theorem toLower_eq_of_small {c d : Char} (hd : d.toNat < 97 ∨ 122 < d.toNat)
    (h : c.toLower = d) : c = d := by
  by_cases hc : c.toNat ≥ 65 ∧ c.toNat ≤ 90
  · exfalso
    have hv : (c.toNat + 32).isValidChar := Or.inl (by omega)
    have h2 : (Char.ofNat (c.toNat + 32)).toNat = d.toNat := by
      rw [show Char.ofNat (c.toNat + 32) = c.toLower from by simp [Char.toLower, hc], h]
    rw [show Char.ofNat (c.toNat + 32) = Char.ofNatAux (c.toNat + 32) hv from dif_pos hv,
        char_toNat_ofNatAux] at h2
    omega
  · simpa [Char.toLower, hc] using h

theorem toLower_eq_dot {c : Char} (h : c.toLower = '.') : c = '.' :=
  toLower_eq_of_small (Or.inl (by decide)) h

/-- Splitting a name whose lower-casing ends in `"." ++ ds` (with `ds`
dot-free): the name itself decomposes the same way around a literal dot. -/
theorem jsToLower_decomp (u pre ds : List Char)
    (h : jsToLower u = pre ++ '.' :: ds) (hds : ∀ c ∈ ds, ¬ c = '.') :
    ∃ stem tail, u = stem ++ '.' :: tail ∧ jsToLower stem = pre ∧
      jsToLower tail = ds ∧ (∀ c ∈ tail, ¬ c = '.') := by
  rw [jsToLower] at h
  obtain ⟨stem, l₂, hu, hstem, hl₂⟩ := List.map_eq_append_iff.mp h
  obtain ⟨cdot, tail, hl₂e, hcdot, htail⟩ := List.map_eq_cons_iff.mp hl₂
  have hcd : cdot = '.' := toLower_eq_dot hcdot
  subst hcd
  refine ⟨stem, tail, by rw [hu, hl₂e], hstem, htail, ?_⟩
  intro c hc hcdot2
  subst hcdot2
  have : Char.toLower '.' ∈ ds := by
    rw [← htail]
    exact List.mem_map_of_mem Char.toLower hc
  exact hds _ this (by rfl)

/-- The dotless extension of a name whose lower-casing is `pre ++ "." ++ ds`
with `ds` dot-free is exactly `ds`. -/
theorem getDotlessExtension_append (u pre ds : List Char)
    (h : jsToLower u = pre ++ '.' :: ds) (hds : ∀ c ∈ ds, ¬ c = '.') :
    getDotlessExtension u = ds := by
  have hany : (jsToLower u).any isDotChar = true := by
    rw [h]
    exact List.any_eq_true.mpr ⟨'.', by simp, by decide⟩
  rw [getDotlessExtension, lastSegment_eq, if_pos hany, h]
  have hrev : (pre ++ '.' :: ds).reverse = ds.reverse ++ '.' :: pre.reverse := by
    rw [List.reverse_append, List.reverse_cons, List.append_assoc]
    rfl
  rw [hrev]
  have hall : ∀ x ∈ ds.reverse, (fun c => !isDotChar c) x = true := by
    intro x hx
    have := hds x (List.mem_reverse.mp hx)
    simp [isDotChar, this]
  rw [takeWhile_append_of_all _ hall]
  have : List.takeWhile (fun c => !isDotChar c) ('.' :: pre.reverse) = [] := by
    simp [List.takeWhile_cons, isDotChar]
  rw [this, List.append_nil, List.reverse_reverse]

/-- Core decomposition: if the lower-cased name ends in the extension `e`
(a dot followed by a nonempty dot-free tail), then the name splits as
`stem ++ "." ++ tail` with `tail` lower-casing onto the dotless part of `e`,
and `getDotlessExtension` returns exactly that dotless part. -/
theorem isImage_decomp_core (u e ds : List Char)
    (he : e = '.' :: ds) (hds0 : ds ≠ []) (hds : ∀ c ∈ ds, ¬ c = '.')
    (hend : jsEndsWith (jsToLower u) e = true) :
    ∃ stem tail, u = stem ++ '.' :: tail ∧ tail ≠ [] ∧ (∀ c ∈ tail, ¬ c = '.') ∧
      '.' :: jsToLower tail = e ∧ getDotlessExtension u = jsToLower tail := by
  rw [jsEndsWith, List.isSuffixOf_iff_suffix] at hend
  obtain ⟨pre, hpre⟩ := hend
  rw [he] at hpre
  obtain ⟨stem, tail, hu, hstem, htail, htailfree⟩ :=
    jsToLower_decomp u pre ds hpre.symm hds
  refine ⟨stem, tail, hu, ?_, htailfree, by rw [htail, ← he], ?_⟩
  · intro hnil
    rw [hnil] at htail
    exact hds0 (by simpa using htail.symm)
  · rw [htail]
    exact getDotlessExtension_append u pre ds hpre.symm hds

/-- A name accepted by `isImageFileName` decomposes as `stem ++ "." ++ tail`
where the lower-cased `"." ++ tail` is one of the four recognized extensions,
and `getDotlessExtension` returns the lower-cased `tail`. -/
theorem isImageFileName_decomp (u : List Char) (h : isImageFileName u = true) :
    ∃ stem tail, u = stem ++ '.' :: tail ∧ tail ≠ [] ∧ (∀ c ∈ tail, ¬ c = '.') ∧
      (jsToLower tail = "png".data ∨ jsToLower tail = "jpg".data ∨
        jsToLower tail = "jpeg".data ∨ jsToLower tail = "svg".data) ∧
      getDotlessExtension u = jsToLower tail := by
  rw [isImageFileName] at h
  split at h
  · exact absurd h Bool.false_ne_true
  · obtain ⟨e, he, hend⟩ := List.any_eq_true.mp h
    have hcases : (e = '.' :: "png".data ∨ e = '.' :: "jpg".data ∨
        e = '.' :: "jpeg".data ∨ e = '.' :: "svg".data) := by
      simp only [IMAGE_EXTENSIONS, List.map, List.mem_cons, List.not_mem_nil, or_false] at he
      rcases he with h1 | h1 | h1 | h1 <;> subst h1 <;> simp [String.data]
    rcases hcases with he2 | he2 | he2 | he2
    · obtain ⟨stem, tail, h1, h2, h3, h4, h5⟩ :=
        isImage_decomp_core u e _ he2 (by decide) (by decide) hend
      rw [he2] at h4
      injection h4 with h4a h4b
      exact ⟨stem, tail, h1, h2, h3, Or.inl h4b, h5⟩
    · obtain ⟨stem, tail, h1, h2, h3, h4, h5⟩ :=
        isImage_decomp_core u e _ he2 (by decide) (by decide) hend
      rw [he2] at h4
      injection h4 with h4a h4b
      exact ⟨stem, tail, h1, h2, h3, Or.inr (Or.inl h4b), h5⟩
    · obtain ⟨stem, tail, h1, h2, h3, h4, h5⟩ :=
        isImage_decomp_core u e _ he2 (by decide) (by decide) hend
      rw [he2] at h4
      injection h4 with h4a h4b
      exact ⟨stem, tail, h1, h2, h3, Or.inr (Or.inr (Or.inl h4b)), h5⟩
    · obtain ⟨stem, tail, h1, h2, h3, h4, h5⟩ :=
        isImage_decomp_core u e _ he2 (by decide) (by decide) hend
      rw [he2] at h4
      injection h4 with h4a h4b
      exact ⟨stem, tail, h1, h2, h3, Or.inr (Or.inr (Or.inr h4b)), h5⟩

/-! ## C10: the loadImageFile guard is unreachable for filtered entries -/

/-- C10: every entry passing the `getImageEntries` filter satisfies the guard
at the top of `loadImageFile` — `isImageFileName("test." + ext)` holds — so
the `"Invalid image file type"` branch is unreachable and `loadImageFile`
proceeds (returning the MIME type it hands to the external decoder). -/
theorem claimC10 (entries : List JSZipObject) (e : JSZipObject)
    (he : e ∈ getImageEntries entries) :
    isImageFileName (testDot ++ getDotlessExtension e.name) = true ∧
    loadImageFile e = Except.ok ( "image/".data ++ jsToLower (getDotlessExtension e.name)) := by
  have himg : isImageFileName e.name = true := by
    rw [getImageEntries] at he
    have := (List.mem_filter.mp he).2
    exact (Bool.and_eq_true _ _ |>.mp this).2
  obtain ⟨stem, tail, hu, htne, htf, hmem, hext⟩ := isImageFileName_decomp e.name himg
  have hguard : isImageFileName (testDot ++ getDotlessExtension e.name) = true := by
    rw [hext]
    rcases hmem with h1 | h1 | h1 | h1 <;> rw [h1] <;> decide
  refine ⟨hguard, ?_⟩
  rw [loadImageFile, if_neg]
  rw [hguard]
  intro h
  simp at h

/-- C10 witness at a concrete zip listing. -/
theorem claimC10_witness :
    (JSZipObject.mk ( "dir/a.PNG".data) false) ∈
      getImageEntries [JSZipObject.mk ( "dir/".data) true,
        JSZipObject.mk ( "dir/a.PNG".data) false,
        JSZipObject.mk ( ".hidden.png".data) false] ∧
    isImageFileName (testDot ++ getDotlessExtension ( "dir/a.PNG".data)) = true ∧
    loadImageFile (JSZipObject.mk ( "dir/a.PNG".data) false) =
      Except.ok ( "image/".data ++ jsToLower (getDotlessExtension ( "dir/a.PNG".data))) :=
  ⟨by decide,
    claimC10
      [JSZipObject.mk ( "dir/".data) true,
        JSZipObject.mk ( "dir/a.PNG".data) false,
        JSZipObject.mk ( ".hidden.png".data) false]
      (JSZipObject.mk ( "dir/a.PNG".data) false) (by decide)⟩

/-! ## C5: download packaging -/

/-- The regex replace `/\.[^.]+$/` on a name of the form `stem ++ "." ++ tail`
with `tail` nonempty and dot-free replaces exactly that final extension. -/
theorem jsReplaceExt_append (stem tail repl : List Char) (htail : tail ≠ [])
    (hds : ∀ c ∈ tail, ¬ c = '.') :
    jsReplaceExt (stem ++ '.' :: tail) repl = stem ++ repl := by
  rw [jsReplaceExt]
  have hrev : (stem ++ '.' :: tail).reverse = tail.reverse ++ '.' :: stem.reverse := by
    rw [List.reverse_append, List.reverse_cons, List.append_assoc]
    rfl
  have hall : ∀ x ∈ tail.reverse, (fun c => !(c = '.' : Bool)) x = true := by
    intro x hx
    have := hds x (List.mem_reverse.mp hx)
    simp [this]
  have htw : (stem ++ '.' :: tail).reverse.takeWhile (fun c => ¬ c = '.') = tail.reverse := by
    rw [hrev]
    rw [takeWhile_append_of_all _ (by simpa using hall)]
    have : List.takeWhile (fun c => decide ¬ c = '.') ('.' :: stem.reverse) = [] := by
      simp [List.takeWhile_cons]
    simp only [this, List.append_nil]
  have hdw : (stem ++ '.' :: tail).reverse.dropWhile (fun c => ¬ c = '.') =
      '.' :: stem.reverse := by
    rw [hrev, List.dropWhile_append]
    have h1 : (tail.reverse.dropWhile fun c => decide ¬ c = '.') = [] := by
      rw [List.dropWhile_eq_nil_iff]
      intro x hx
      simpa using hall x hx
    rw [h1]
    simp [List.dropWhile_cons]
  rw [htw, hdw]
  have hne : tail.reverse.isEmpty = false := by
    simp [List.isEmpty_iff, htail]
  rw [if_neg (by rw [hne]; exact Bool.false_ne_true)]
  simp

/-- The regex replace `/\.[zZ][iI][pP]$/` on a name ending with a
case-insensitive `.zip` replaces that suffix with `".cropped.zip"`. -/
theorem jsReplaceZipExt_eq (u rrest : List Char) (c1 c2 c3 : Char)
    (hrev : u.reverse = c1 :: c2 :: c3 :: '.' :: rrest)
    (h1 : c1 = 'p' ∨ c1 = 'P') (h2 : c2 = 'i' ∨ c2 = 'I') (h3 : c3 = 'z' ∨ c3 = 'Z') :
    jsReplaceZipExt u = rrest.reverse ++ croppedZipExt := by
  rw [jsReplaceZipExt, hrev]
  simp only []
  rw [if_pos ⟨h1, h2, h3, trivial⟩]

/-- C5: the download step. If the upload name is classified as an image, a
single encoded image is emitted, built from the first cropped file, with MIME
type `"image/" + dotlessExtension` and a filename obtained by replacing the
upload name's final extension with `".cropped.<ext>"`; otherwise an archive
is emitted with one entry per cropped image, entry names byte-identical to the
images' names, and a filename obtained by replacing a trailing
case-insensitive `".zip"` by `".cropped.zip"`. -/
theorem claimC5 (u : List Char) (f : ImageFile) (rest : List ImageFile) :
    (isImageFileName u = true →
      onDownloadButtonClick u (f :: rest) =
        DownloadAction.singleImage
          ( "image/".data ++ jsToLower (getDotlessExtension u))
          (jsReplaceExt u ( ".cropped.".data ++ jsToLower (getDotlessExtension u)))
          f ∧
      ∃ stem tail, u = stem ++ '.' :: tail ∧ tail ≠ [] ∧ (∀ c ∈ tail, ¬ c = '.') ∧
        jsReplaceExt u ( ".cropped.".data ++ jsToLower (getDotlessExtension u)) =
          stem ++ ( ".cropped.".data ++ jsToLower (getDotlessExtension u))) ∧
    (isImageFileName u = false →
      onDownloadButtonClick u (f :: rest) =
        DownloadAction.zipDownload (zipImageFiles (f :: rest)) (jsReplaceZipExt u) ∧
      (zipImageFiles (f :: rest)).map Prod.fst = (f :: rest).map ImageFile.name ∧
      (∀ c1 c2 c3 rrest, u.reverse = c1 :: c2 :: c3 :: '.' :: rrest →
        (c1 = 'p' ∨ c1 = 'P') → (c2 = 'i' ∨ c2 = 'I') → (c3 = 'z' ∨ c3 = 'Z') →
        jsReplaceZipExt u = rrest.reverse ++ croppedZipExt)) := by
  constructor
  · intro himg
    constructor
    · rw [onDownloadButtonClick, if_neg (by simp), if_pos himg]
    · obtain ⟨stem, tail, hu, htne, htf, _, _⟩ := isImageFileName_decomp u himg
      exact ⟨stem, tail, hu, htne, htf, by rw [hu, jsReplaceExt_append stem tail _ htne htf]⟩
  · intro himg
    refine ⟨?_, by simp [zipImageFiles], ?_⟩
    · rw [onDownloadButtonClick, if_neg (by simp),
        if_neg (by rw [himg]; exact Bool.false_ne_true)]
    · intro c1 c2 c3 rrest hrev h1 h2 h3
      exact jsReplaceZipExt_eq u rrest c1 c2 c3 hrev h1 h2 h3

/-- C5 witness: one image upload and one zip upload, both concrete. -/
theorem claimC5_witness :
    (isImageFileName ( "My.Photo.PNG".data) = true ∧
      onDownloadButtonClick ( "My.Photo.PNG".data)
          [ImageFile.mk ( "a".data) 1 1 [0, 0, 0, 1] (CropBounds.mk (jnum 0) (jnum 0) (jnum 0) (jnum 0))] =
        DownloadAction.singleImage
          ( "image/".data ++ jsToLower (getDotlessExtension ( "My.Photo.PNG".data)))
          (jsReplaceExt ( "My.Photo.PNG".data)
            ( ".cropped.".data ++ jsToLower (getDotlessExtension ( "My.Photo.PNG".data))))
          (ImageFile.mk ( "a".data) 1 1 [0, 0, 0, 1] (CropBounds.mk (jnum 0) (jnum 0) (jnum 0) (jnum 0)))) ∧
    (isImageFileName ( "batch.ZiP".data) = false ∧
      onDownloadButtonClick ( "batch.ZiP".data)
          [ImageFile.mk ( "a".data) 1 1 [0, 0, 0, 1] (CropBounds.mk (jnum 0) (jnum 0) (jnum 0) (jnum 0))] =
        DownloadAction.zipDownload
          (zipImageFiles
            [ImageFile.mk ( "a".data) 1 1 [0, 0, 0, 1] (CropBounds.mk (jnum 0) (jnum 0) (jnum 0) (jnum 0))])
          (jsReplaceZipExt ( "batch.ZiP".data))) :=
  ⟨⟨by decide,
    ((claimC5 ( "My.Photo.PNG".data)
      (ImageFile.mk ( "a".data) 1 1 [0, 0, 0, 1] (CropBounds.mk (jnum 0) (jnum 0) (jnum 0) (jnum 0)))
      []).1 (by decide)).1⟩,
   ⟨by decide,
    ((claimC5 ( "batch.ZiP".data)
      (ImageFile.mk ( "a".data) 1 1 [0, 0, 0, 1] (CropBounds.mk (jnum 0) (jnum 0) (jnum 0) (jnum 0)))
      []).2 (by decide)).1⟩⟩

/-! ## C2: the bounds detector -/

theorem foldl_flatMap {α β σ : Type _} (f : α → List β) (g : σ → β → σ)
    (l : List α) (a : σ) :
    (l.flatMap f).foldl g a = l.foldl (fun acc x => (f x).foldl g acc) a := by
  induction l generalizing a with
  | nil => rfl
  | cons x rest ih =>
    rw [List.flatMap_cons, List.foldl_append, List.foldl_cons, ih]

theorem foldl_pairList {σ : Type _} (w h : Nat) (g : σ → Nat → Nat → σ) (a : σ) :
    (List.range w).foldl
      (fun acc x => (List.range h).foldl (fun acc2 y => g acc2 x y) acc) a =
    (pairList w h).foldl (fun acc q => g acc q.1 q.2) a := by
  rw [pairList, foldl_flatMap]
  simp only [List.foldl_map]

theorem foldl_filter_cond {α σ : Type _} (p : α → Bool) (g : σ → α → σ)
    (l : List α) (a : σ) :
    l.foldl (fun acc q => if p q then g acc q else acc) a = (l.filter p).foldl g a := by
  induction l generalizing a with
  | nil => rfl
  | cons x rest ih =>
    rw [List.foldl_cons, List.filter_cons]
    by_cases hx : p x = true
    · rw [if_pos hx, if_pos hx, List.foldl_cons, ih]
    · rw [if_neg hx, if_neg (by simpa using hx), ih]

theorem mem_pairList (w h : Nat) (q : Nat × Nat) :
    q ∈ pairList w h ↔ q.1 < w ∧ q.2 < h := by
  cases q with
  | mk x y =>
    simp [pairList, List.mem_flatMap, List.mem_map, List.mem_range]

theorem mem_visList (w h : Nat) (d : List Nat) (q : Nat × Nat) :
    q ∈ visList w h d ↔ visiblePixel w h d q.1 q.2 := by
  rw [visList, List.mem_filter, mem_pairList, visiblePixel]
  simp [and_assoc]

theorem foldl_bounds_split (l : List (Nat × Nat)) (b : CropBounds) :
    l.foldl
      (fun acc q =>
        { minVisiblePixelX := jmin acc.minVisiblePixelX (jnum q.1)
          maxVisiblePixelX := jmax acc.maxVisiblePixelX (jnum q.1)
          minVisiblePixelY := jmin acc.minVisiblePixelY (jnum q.2)
          maxVisiblePixelY := jmax acc.maxVisiblePixelY (jnum q.2) }) b =
    { minVisiblePixelX := jminFoldNat (l.map Prod.fst) b.minVisiblePixelX
      maxVisiblePixelX := jmaxFoldNat (l.map Prod.fst) b.maxVisiblePixelX
      minVisiblePixelY := jminFoldNat (l.map Prod.snd) b.minVisiblePixelY
      maxVisiblePixelY := jmaxFoldNat (l.map Prod.snd) b.maxVisiblePixelY } := by
  induction l generalizing b with
  | nil => rfl
  | cons q rest ih =>
    rw [List.foldl_cons, ih]
    rfl

/-- `getCropBounds` flattened to a single fold over the visible pixels. -/
theorem getCropBounds_eq_folds (w h : Nat) (d : List Nat) :
    getCropBounds w h d =
      { minVisiblePixelX := jminFoldNat ((visList w h d).map Prod.fst) JNum.posInf
        maxVisiblePixelX := jmaxFoldNat ((visList w h d).map Prod.fst) JNum.negInf
        minVisiblePixelY := jminFoldNat ((visList w h d).map Prod.snd) JNum.posInf
        maxVisiblePixelY := jmaxFoldNat ((visList w h d).map Prod.snd) JNum.negInf } := by
  have h1 : getCropBounds w h d =
      (pairList w h).foldl
        (fun acc q =>
          if d[(q.2 * w + q.1) * 4 + 3]? = some 0 then acc
          else
            { minVisiblePixelX := jmin acc.minVisiblePixelX (jnum q.1)
              maxVisiblePixelX := jmax acc.maxVisiblePixelX (jnum q.1)
              minVisiblePixelY := jmin acc.minVisiblePixelY (jnum q.2)
              maxVisiblePixelY := jmax acc.maxVisiblePixelY (jnum q.2) })
        { minVisiblePixelX := JNum.posInf
          maxVisiblePixelX := JNum.negInf
          minVisiblePixelY := JNum.posInf
          maxVisiblePixelY := JNum.negInf } :=
    foldl_pairList w h
      (fun (acc : CropBounds) (x y : Nat) =>
        if d[(y * w + x) * 4 + 3]? = some 0 then acc
        else
          ({ minVisiblePixelX := jmin acc.minVisiblePixelX (jnum x)
             maxVisiblePixelX := jmax acc.maxVisiblePixelX (jnum x)
             minVisiblePixelY := jmin acc.minVisiblePixelY (jnum y)
             maxVisiblePixelY := jmax acc.maxVisiblePixelY (jnum y) } : CropBounds))
      ({ minVisiblePixelX := JNum.posInf
         maxVisiblePixelX := JNum.negInf
         minVisiblePixelY := JNum.posInf
         maxVisiblePixelY := JNum.negInf } : CropBounds)
  rw [h1]
  have h2 : ∀ (acc : CropBounds) (q : Nat × Nat),
      (if d[(q.2 * w + q.1) * 4 + 3]? = some 0 then acc
       else
        { minVisiblePixelX := jmin acc.minVisiblePixelX (jnum q.1)
          maxVisiblePixelX := jmax acc.maxVisiblePixelX (jnum q.1)
          minVisiblePixelY := jmin acc.minVisiblePixelY (jnum q.2)
          maxVisiblePixelY := jmax acc.maxVisiblePixelY (jnum q.2) }) =
      (if decide (¬ d[(q.2 * w + q.1) * 4 + 3]? = some 0) = true then
        { minVisiblePixelX := jmin acc.minVisiblePixelX (jnum q.1)
          maxVisiblePixelX := jmax acc.maxVisiblePixelX (jnum q.1)
          minVisiblePixelY := jmin acc.minVisiblePixelY (jnum q.2)
          maxVisiblePixelY := jmax acc.maxVisiblePixelY (jnum q.2) }
       else acc) := by
    intro acc q
    by_cases hq : d[(q.2 * w + q.1) * 4 + 3]? = some 0
    · rw [if_pos hq, if_neg (by simp [hq])]
    · rw [if_neg hq, if_pos (by simp [hq])]
  simp only [h2]
  rw [foldl_filter_cond, ← visList, foldl_bounds_split]

theorem jmin_jnum (a b : Nat) : jmin (jnum a) (jnum b) = jnum (min a b) := by
  rw [jnum, jnum, jnum, jmin, jle]
  by_cases hab : (a : Int) ≤ (b : Int)
  · rw [if_pos (by exact decide_eq_true hab)]
    have : min a b = a := Nat.min_eq_left (by exact_mod_cast hab)
    rw [this]
  · rw [if_neg (by simpa using hab)]
    have : min a b = b := Nat.min_eq_right (by omega)
    rw [this]

theorem jmax_jnum (a b : Nat) : jmax (jnum a) (jnum b) = jnum (max a b) := by
  rw [jnum, jnum, jnum, jmax, jle]
  by_cases hba : (b : Int) ≤ (a : Int)
  · rw [if_pos (by exact decide_eq_true hba)]
    have : max a b = a := Nat.max_eq_left (by exact_mod_cast hba)
    rw [this]
  · rw [if_neg (by simpa using hba)]
    have : max a b = b := Nat.max_eq_right (by omega)
    rw [this]

theorem jmin_posInf_jnum (x : Nat) : jmin JNum.posInf (jnum x) = jnum x := rfl

theorem jmax_negInf_jnum (x : Nat) : jmax JNum.negInf (jnum x) = jnum x := rfl

theorem jminFoldNat_jnum_spec (xs : List Nat) :
    ∀ c : Nat, ∃ m : Nat, jminFoldNat xs (jnum c) = jnum m ∧
      m ∈ c :: xs ∧ ∀ y ∈ c :: xs, m ≤ y := by
  induction xs with
  | nil => exact fun c => ⟨c, rfl, by simp, by simp⟩
  | cons x rest ih =>
    intro c
    have hstep : jminFoldNat (x :: rest) (jnum c) = jminFoldNat rest (jnum (min c x)) := by
      rw [jminFoldNat, jminFoldNat, List.foldl_cons, jmin_jnum]
    obtain ⟨m, h1, h2, h3⟩ := ih (min c x)
    refine ⟨m, by rw [hstep, h1], ?_, ?_⟩
    · rcases List.mem_cons.mp h2 with hm | hm
      · rcases Nat.le_total c x with hcx | hcx
        · rw [Nat.min_eq_left hcx] at hm
          simp [hm]
        · rw [Nat.min_eq_right hcx] at hm
          simp [hm]
      · simp [List.mem_cons.mpr (Or.inr hm)]
    · intro y hy
      rcases List.mem_cons.mp hy with hy | hy
      · have := h3 (min c x) (by simp)
        omega
      · rcases List.mem_cons.mp hy with hy | hy
        · have := h3 (min c x) (by simp)
          omega
        · exact h3 y (by simp [hy])

theorem jmaxFoldNat_jnum_spec (xs : List Nat) :
    ∀ c : Nat, ∃ m : Nat, jmaxFoldNat xs (jnum c) = jnum m ∧
      m ∈ c :: xs ∧ ∀ y ∈ c :: xs, y ≤ m := by
  induction xs with
  | nil => exact fun c => ⟨c, rfl, by simp, by simp⟩
  | cons x rest ih =>
    intro c
    have hstep : jmaxFoldNat (x :: rest) (jnum c) = jmaxFoldNat rest (jnum (max c x)) := by
      rw [jmaxFoldNat, jmaxFoldNat, List.foldl_cons, jmax_jnum]
    obtain ⟨m, h1, h2, h3⟩ := ih (max c x)
    refine ⟨m, by rw [hstep, h1], ?_, ?_⟩
    · rcases List.mem_cons.mp h2 with hm | hm
      · rcases Nat.le_total c x with hcx | hcx
        · rw [Nat.max_eq_right hcx] at hm
          simp [hm]
        · rw [Nat.max_eq_left hcx] at hm
          simp [hm]
      · simp [List.mem_cons.mpr (Or.inr hm)]
    · intro y hy
      rcases List.mem_cons.mp hy with hy | hy
      · have := h3 (max c x) (by simp)
        omega
      · rcases List.mem_cons.mp hy with hy | hy
        · have := h3 (max c x) (by simp)
          omega
        · exact h3 y (by simp [hy])

theorem jminFoldNat_posInf_spec (xs : List Nat) (hne : xs ≠ []) :
    ∃ m : Nat, jminFoldNat xs JNum.posInf = jnum m ∧ m ∈ xs ∧ ∀ y ∈ xs, m ≤ y := by
  cases xs with
  | nil => exact absurd rfl hne
  | cons x rest =>
    have hstep : jminFoldNat (x :: rest) JNum.posInf = jminFoldNat rest (jnum x) := by
      rw [jminFoldNat, jminFoldNat, List.foldl_cons, jmin_posInf_jnum]
    obtain ⟨m, h1, h2, h3⟩ := jminFoldNat_jnum_spec rest x
    exact ⟨m, by rw [hstep, h1], h2, h3⟩

theorem jmaxFoldNat_negInf_spec (xs : List Nat) (hne : xs ≠ []) :
    ∃ m : Nat, jmaxFoldNat xs JNum.negInf = jnum m ∧ m ∈ xs ∧ ∀ y ∈ xs, y ≤ m := by
  cases xs with
  | nil => exact absurd rfl hne
  | cons x rest =>
    have hstep : jmaxFoldNat (x :: rest) JNum.negInf = jmaxFoldNat rest (jnum x) := by
      rw [jmaxFoldNat, jmaxFoldNat, List.foldl_cons, jmax_negInf_jnum]
    obtain ⟨m, h1, h2, h3⟩ := jmaxFoldNat_jnum_spec rest x
    exact ⟨m, by rw [hstep, h1], h2, h3⟩

theorem visList_eq_nil (w h : Nat) (d : List Nat)
    (hnone : ∀ x y, ¬ visiblePixel w h d x y) : visList w h d = [] := by
  rw [List.eq_nil_iff_forall_not_mem]
  intro q hq
  exact hnone q.1 q.2 ((mem_visList w h d q).mp hq)

/-- If some pixel is visible, `getCropBounds` returns four finite values
forming a tight rectangle inside the image containing all visible pixels. -/
theorem getCropBounds_spec (w h : Nat) (d : List Nat)
    (hvis : ∃ q : Nat × Nat, visiblePixel w h d q.1 q.2) :
    ∃ mx Mx my My : Nat,
      getCropBounds w h d = CropBounds.mk (jnum mx) (jnum Mx) (jnum my) (jnum My) ∧
      mx ≤ Mx ∧ my ≤ My ∧ Mx < w ∧ My < h ∧
      (∀ x y, visiblePixel w h d x y → mx ≤ x ∧ x ≤ Mx ∧ my ≤ y ∧ y ≤ My) ∧
      (∃ y, visiblePixel w h d mx y) ∧ (∃ y, visiblePixel w h d Mx y) ∧
      (∃ x, visiblePixel w h d x my) ∧ (∃ x, visiblePixel w h d x My) := by
  obtain ⟨q0, hq0⟩ := hvis
  have hmem : q0 ∈ visList w h d := (mem_visList w h d q0).mpr hq0
  have hne : visList w h d ≠ [] := List.ne_nil_of_mem hmem
  have hnex : (visList w h d).map Prod.fst ≠ [] := by
    simp [List.map_eq_nil_iff, hne]
  have hney : (visList w h d).map Prod.snd ≠ [] := by
    simp [List.map_eq_nil_iff, hne]
  obtain ⟨mx, hmx1, hmx2, hmx3⟩ := jminFoldNat_posInf_spec _ hnex
  obtain ⟨Mx, hMx1, hMx2, hMx3⟩ := jmaxFoldNat_negInf_spec _ hnex
  obtain ⟨my, hmy1, hmy2, hmy3⟩ := jminFoldNat_posInf_spec _ hney
  obtain ⟨My, hMy1, hMy2, hMy3⟩ := jmaxFoldNat_negInf_spec _ hney
  have hcont : ∀ x y, visiblePixel w h d x y → mx ≤ x ∧ x ≤ Mx ∧ my ≤ y ∧ y ≤ My := by
    intro x y hv
    have hq : (x, y) ∈ visList w h d := (mem_visList w h d (x, y)).mpr hv
    refine ⟨hmx3 x ?_, hMx3 x ?_, hmy3 y ?_, hMy3 y ?_⟩ <;>
      first
        | exact List.mem_map_of_mem Prod.fst hq
        | exact List.mem_map_of_mem Prod.snd hq
  have hattx : ∀ v : Nat, v ∈ (visList w h d).map Prod.fst →
      ∃ y, visiblePixel w h d v y := by
    intro v hv
    obtain ⟨q, hq, hqv⟩ := List.mem_map.mp hv
    have := (mem_visList w h d q).mp hq
    exact ⟨q.2, by rw [← hqv]; exact this⟩
  have hatty : ∀ v : Nat, v ∈ (visList w h d).map Prod.snd →
      ∃ x, visiblePixel w h d x v := by
    intro v hv
    obtain ⟨q, hq, hqv⟩ := List.mem_map.mp hv
    have := (mem_visList w h d q).mp hq
    exact ⟨q.1, by rw [← hqv]; exact this⟩
  obtain ⟨ymx, hymx⟩ := hattx mx hmx2
  obtain ⟨yMx, hyMx⟩ := hattx Mx hMx2
  obtain ⟨xmy, hxmy⟩ := hatty my hmy2
  obtain ⟨xMy, hxMy⟩ := hatty My hMy2
  refine ⟨mx, Mx, my, My, ?_, ?_, ?_, ?_, ?_, hcont,
    ⟨ymx, hymx⟩, ⟨yMx, hyMx⟩, ⟨xmy, hxmy⟩, ⟨xMy, hxMy⟩⟩
  · rw [getCropBounds_eq_folds, hmx1, hMx1, hmy1, hMy1]
  · exact (hcont Mx yMx hyMx).1
  · exact (hcont xMy My hxMy).2.2.1
  · exact hyMx.1
  · exact hxMy.2.1

/-- With no visible pixel, `getCropBounds` returns the infinite sentinel. -/
theorem getCropBounds_empty (w h : Nat) (d : List Nat)
    (hnone : ∀ x y, ¬ visiblePixel w h d x y) :
    getCropBounds w h d =
      CropBounds.mk JNum.posInf JNum.negInf JNum.posInf JNum.negInf := by
  rw [getCropBounds_eq_folds, visList_eq_nil w h d hnone]
  rfl

/-- C2: for an image buffer of exactly `width*height` RGBA entries, if some
pixel has non-zero alpha then `getCropBounds` returns four finite values
forming a rectangle inside the image that contains every visible pixel and is
tight (all four bounding lines are attained by visible pixels); with no
visible pixel it returns the sentinel
`minX = minY = +∞, maxX = maxY = -∞`. -/
theorem claimC2 (w h : Nat) (d : List Nat) (hlen : d.length = 4 * (w * h)) :
    ((∃ q : Nat × Nat, visiblePixel w h d q.1 q.2) →
      ∃ mx Mx my My : Nat,
        getCropBounds w h d = CropBounds.mk (jnum mx) (jnum Mx) (jnum my) (jnum My) ∧
        mx ≤ Mx ∧ my ≤ My ∧ Mx < w ∧ My < h ∧
        (∀ x y, visiblePixel w h d x y → mx ≤ x ∧ x ≤ Mx ∧ my ≤ y ∧ y ≤ My) ∧
        (∃ y, visiblePixel w h d mx y) ∧ (∃ y, visiblePixel w h d Mx y) ∧
        (∃ x, visiblePixel w h d x my) ∧ (∃ x, visiblePixel w h d x My)) ∧
    ((∀ x y, ¬ visiblePixel w h d x y) →
      getCropBounds w h d =
        CropBounds.mk JNum.posInf JNum.negInf JNum.posInf JNum.negInf) :=
  ⟨getCropBounds_spec w h d, getCropBounds_empty w h d⟩

/-- C2 witness: a 2×2 image with a single visible pixel at `(1, 0)`, and a
fully transparent 2×2 image. -/
theorem claimC2_witness :
    (∃ mx Mx my My : Nat,
      getCropBounds 2 2 [0, 0, 0, 0, 0, 0, 0, 5, 0, 0, 0, 0, 0, 0, 0, 0] =
        CropBounds.mk (jnum mx) (jnum Mx) (jnum my) (jnum My) ∧
      mx ≤ Mx ∧ my ≤ My ∧ Mx < 2 ∧ My < 2 ∧
      (∀ x y, visiblePixel 2 2 [0, 0, 0, 0, 0, 0, 0, 5, 0, 0, 0, 0, 0, 0, 0, 0] x y →
        mx ≤ x ∧ x ≤ Mx ∧ my ≤ y ∧ y ≤ My) ∧
      (∃ y, visiblePixel 2 2 [0, 0, 0, 0, 0, 0, 0, 5, 0, 0, 0, 0, 0, 0, 0, 0] mx y) ∧
      (∃ y, visiblePixel 2 2 [0, 0, 0, 0, 0, 0, 0, 5, 0, 0, 0, 0, 0, 0, 0, 0] Mx y) ∧
      (∃ x, visiblePixel 2 2 [0, 0, 0, 0, 0, 0, 0, 5, 0, 0, 0, 0, 0, 0, 0, 0] x my) ∧
      (∃ x, visiblePixel 2 2 [0, 0, 0, 0, 0, 0, 0, 5, 0, 0, 0, 0, 0, 0, 0, 0] x My)) ∧
    getCropBounds 2 2 [0, 0, 0, 0, 0, 0, 0, 0, 0, 0, 0, 0, 0, 0, 0, 0] =
      CropBounds.mk JNum.posInf JNum.negInf JNum.posInf JNum.negInf :=
  ⟨(claimC2 2 2 [0, 0, 0, 0, 0, 0, 0, 5, 0, 0, 0, 0, 0, 0, 0, 0] (by decide)).1
      ⟨(1, 0), by decide⟩,
   (claimC2 2 2 [0, 0, 0, 0, 0, 0, 0, 0, 0, 0, 0, 0, 0, 0, 0, 0] (by decide)).2
      (by
        rintro x y ⟨hx, hy, ha⟩
        interval_cases x <;> interval_cases y <;> exact ha (by decide))⟩

/-! ## C1: the crop/pad compositor -/

theorem foldl_set_length (writes : List (Nat × Nat)) (init : List Nat) :
    (writes.foldl (fun a r => a.set r.1 r.2) init).length = init.length := by
  induction writes generalizing init with
  | nil => rfl
  | cons q rest ih =>
    rw [List.foldl_cons, ih, List.length_set]

theorem foldl_set_not_mem (writes : List (Nat × Nat)) (init : List Nat) (j : Nat)
    (hj : ∀ q ∈ writes, q.1 ≠ j) :
    (writes.foldl (fun a r => a.set r.1 r.2) init)[j]? = init[j]? := by
  induction writes generalizing init with
  | nil => rfl
  | cons q rest ih =>
    rw [List.foldl_cons, ih _ (fun r hr => hj r (List.mem_cons_of_mem q hr)),
      List.getElem?_set_ne (hj q (List.mem_cons_self q rest))]

theorem foldl_set_mem (writes : List (Nat × Nat)) (init : List Nat) (j v : Nat)
    (hnd : (writes.map Prod.fst).Nodup) (hmem : (j, v) ∈ writes)
    (hlt : j < init.length) :
    (writes.foldl (fun a r => a.set r.1 r.2) init)[j]? = some v := by
  induction writes generalizing init with
  | nil => exact absurd hmem (List.not_mem_nil _)
  | cons q rest ih =>
    obtain ⟨qi, qv⟩ := q
    rw [List.map_cons] at hnd
    have hnd2 := List.nodup_cons.mp hnd
    rcases List.mem_cons.mp hmem with hq | hq
    · injection hq with h1 h2
      subst h1
      subst h2
      rw [List.foldl_cons]
      have hnotin : ∀ r ∈ rest, r.1 ≠ j := by
        intro r hr hrj
        apply hnd2.1
        have hjm : r.1 ∈ List.map Prod.fst rest := List.mem_map_of_mem Prod.fst hr
        rw [hrj] at hjm
        exact hjm
      rw [foldl_set_not_mem rest _ j hnotin]
      exact List.getElem?_set_self hlt
    · have hqj : qi ≠ j := by
        intro hqj
        apply hnd2.1
        have hjm : j ∈ List.map Prod.fst rest := List.mem_map_of_mem Prod.fst hq
        rw [hqj]
        exact hjm
      rw [List.foldl_cons]
      exact ih (init.set qi qv) hnd2.2 hq (by rw [List.length_set]; exact hlt)

theorem grid_lt {W H a b : Nat} (ha : a < H) (hb : b < W) : a * W + b < W * H := by
  calc a * W + b < a * W + W := by omega
    _ = (a + 1) * W := by ring
    _ ≤ H * W := Nat.mul_le_mul_right W ha
    _ = W * H := Nat.mul_comm H W

theorem grid_inj {W a b a2 b2 : Nat} (hb : b < W) (hb2 : b2 < W)
    (h : a * W + b = a2 * W + b2) : a = a2 ∧ b = b2 := by
  have hW : 0 < W := Nat.pos_of_ne_zero (by omega)
  have h1 : (a * W + b) / W = a := by
    rw [Nat.mul_comm a W, Nat.mul_add_div hW, Nat.div_eq_of_lt hb]
    omega
  have h2 : (a2 * W + b2) / W = a2 := by
    rw [Nat.mul_comm a2 W, Nat.mul_add_div hW, Nat.div_eq_of_lt hb2]
    omega

  have h3 : (a * W + b) % W = b := by
    rw [Nat.mul_comm a W, Nat.mul_add_mod]
    exact Nat.mod_eq_of_lt hb
  have h4 : (a2 * W + b2) % W = b2 := by
    rw [Nat.mul_comm a2 W, Nat.mul_add_mod]
    exact Nat.mod_eq_of_lt hb2
  constructor
  · rw [← h1, ← h2, h]
  · rw [← h3, ← h4, h]

theorem flatMap_map_product {α : Type _} (l : List (Nat × Nat)) (r : List Nat)
    (f : Nat × Nat → Nat → α) :
    l.flatMap (fun q => r.map (fun ch => f q ch)) =
    (l ×ˢ r).map (fun t => f t.1 t.2) := by
  induction l with
  | nil => rfl
  | cons q rest ih =>
    rw [List.flatMap_cons, List.product_cons, List.map_append, ih, List.map_map]
    rfl

theorem foldl_congr_mem {α σ : Type _} (l : List α) (f g : σ → α → σ) (a : σ)
    (h : ∀ s, ∀ x ∈ l, f s x = g s x) : l.foldl f a = l.foldl g a := by
  induction l generalizing a with
  | nil => rfl
  | cons x rest ih =>
    rw [List.foldl_cons, List.foldl_cons, h a x (List.mem_cons_self x rest)]
    exact ih _ (fun s y hy => h s y (List.mem_cons_of_mem x hy))

theorem setI_natCast (arr : List Nat) (n : Nat) (v : Nat) :
    setI arr (n : Int) v = arr.set n v := by
  rw [setI, if_pos (Int.natCast_nonneg n), Int.toNat_natCast]

theorem readI_natCast (d : List Nat) (n : Nat) : readI d (n : Int) = d.getD n 0 := by
  rw [readI, if_pos (Int.natCast_nonneg n), Int.toNat_natCast]

theorem pairList_nodup (w h : Nat) : (pairList w h).Nodup := by
  have hprod : pairList w h = (List.range w).product (List.range h) := rfl
  rw [hprod]
  exact List.Nodup.product (List.nodup_range w) (List.nodup_range h)

theorem croppedData_writes_fst (w : Nat) (d : List Nat) (mX mY tw th p : Nat) :
    ((pairList tw th).flatMap (fun q =>
      (List.range 4).map (fun ch =>
        (((p + q.2) * (tw + 2 * p) + (p + q.1)) * 4 + ch,
         clampByte (d.getD (((mY + q.2) * w + (mX + q.1)) * 4 + ch) 0))))).map Prod.fst =
    ((pairList tw th).product (List.range 4)).map
      (fun t => ((p + t.1.2) * (tw + 2 * p) + (p + t.1.1)) * 4 + t.2) := by
  rw [List.map_flatMap]
  exact flatMap_map_product (pairList tw th) (List.range 4)
    (fun q ch => ((p + q.2) * (tw + 2 * p) + (p + q.1)) * 4 + ch)

theorem croppedIdx_nodup (tw th p : Nat) :
    (((pairList tw th).product (List.range 4)).map
      (fun t => ((p + t.1.2) * (tw + 2 * p) + (p + t.1.1)) * 4 + t.2)).Nodup := by
  apply List.Nodup.map_on
  · rintro ⟨⟨x, y⟩, ch⟩ ht ⟨⟨x2, y2⟩, ch2⟩ ht2 heq
    dsimp only at heq
    obtain ⟨hq, hc⟩ := List.mem_product.mp ht
    obtain ⟨hq2, hc2⟩ := List.mem_product.mp ht2
    obtain ⟨hx, hy⟩ := (mem_pairList tw th _).mp hq
    obtain ⟨hx2, hy2⟩ := (mem_pairList tw th _).mp hq2
    have hch := List.mem_range.mp hc
    have hch2 := List.mem_range.mp hc2
    obtain ⟨hA, hceq⟩ := grid_inj hch hch2 heq
    have hpx : p + x < tw + 2 * p := by omega
    have hpx2 : p + x2 < tw + 2 * p := by omega
    obtain ⟨hyeq, hxeq⟩ := grid_inj hpx hpx2 hA
    have hxx : x = x2 := by omega
    have hyy : y = y2 := by omega
    simp [hxx, hyy, hceq]
  · exact List.Nodup.product (pairList_nodup tw th) (List.nodup_range 4)

theorem croppedData_length (w : Nat) (d : List Nat) (mX mY tw th p : Nat) :
    (croppedData w d mX mY tw th p).length = (tw + 2 * p) * (th + 2 * p) * 4 := by
  rw [croppedData, foldl_set_length, List.length_replicate]

theorem croppedData_getElem (w : Nat) (d : List Nat) (mX mY tw th p : Nat)
    (dx dy ch : Nat) (hdx : dx < tw + 2 * p) (hdy : dy < th + 2 * p) (hch : ch < 4) :
    (croppedData w d mX mY tw th p)[(dy * (tw + 2 * p) + dx) * 4 + ch]? =
      if p ≤ dx ∧ dx < p + tw ∧ p ≤ dy ∧ dy < p + th then
        some (clampByte (d.getD (((mY + (dy - p)) * w + (mX + (dx - p))) * 4 + ch) 0))
      else some 0 := by
  have hjlt : (dy * (tw + 2 * p) + dx) * 4 + ch < (tw + 2 * p) * (th + 2 * p) * 4 := by
    have h1 : dy * (tw + 2 * p) + dx < (tw + 2 * p) * (th + 2 * p) := grid_lt hdy hdx
    omega
  rw [croppedData]
  split
  · rename_i hwin
    obtain ⟨h1, h2, h3, h4⟩ := hwin
    apply foldl_set_mem
    · rw [croppedData_writes_fst]
      exact croppedIdx_nodup tw th p
    · rw [List.mem_flatMap]
      refine ⟨(dx - p, dy - p), ?_, ?_⟩
      · rw [mem_pairList]
        exact ⟨by omega, by omega⟩
      · rw [List.mem_map]
        refine ⟨ch, List.mem_range.mpr hch, ?_⟩
        dsimp only
        have e1 : p + (dy - p) = dy := by omega
        have e2 : p + (dx - p) = dx := by omega
        rw [e1, e2]
    · rw [List.length_replicate]
      exact hjlt
  · rename_i hwin
    rw [foldl_set_not_mem]
    · rw [List.getElem?_replicate, if_pos hjlt]
    · intro r hr hrj
      rw [List.mem_flatMap] at hr
      obtain ⟨q, hq, hrq⟩ := hr
      rw [List.mem_map] at hrq
      obtain ⟨ch2, hch2, hrq2⟩ := hrq
      obtain ⟨hq1, hq2⟩ := (mem_pairList tw th q).mp hq
      have hch2b := List.mem_range.mp hch2
      rw [← hrq2] at hrj
      dsimp only at hrj
      obtain ⟨hA, hcc⟩ := grid_inj hch2b hch hrj
      have hb1 : p + q.1 < tw + 2 * p := by omega
      obtain ⟨hy, hx⟩ := grid_inj hb1 hdx hA
      exact hwin ⟨by omega, by omega, by omega, by omega⟩

/-- The imperative double loop of `cropImageAndAddPadding` (already
specialized to finite bounds `mX ≤ MX`, `mY ≤ MY`) computes `croppedData`. -/
theorem crop_fold_eq (w : Nat) (d : List Nat) (mX MX mY MY p : Nat)
    (hX1 : mX ≤ MX) (hY1 : mY ≤ MY) :
    (List.range ((MX : Int) - (mX : Int) + 1).toNat).foldl
      (fun arr (cropRectX : Nat) =>
        (List.range ((MY : Int) - (mY : Int) + 1).toNat).foldl
          (fun arr2 (cropRectY : Nat) =>
            setI (setI (setI (setI arr2
              ((((p : Int) + (cropRectY : Int)) *
                  ((MX : Int) - (mX : Int) + 1 + 2 * (p : Int)) +
                  ((p : Int) + (cropRectX : Int))) * 4)
              (clampByte (readI d ((((mY : Int) + (cropRectY : Int)) * (w : Int) +
                ((mX : Int) + (cropRectX : Int))) * 4))))
              ((((p : Int) + (cropRectY : Int)) *
                  ((MX : Int) - (mX : Int) + 1 + 2 * (p : Int)) +
                  ((p : Int) + (cropRectX : Int))) * 4 + 1)
              (clampByte (readI d ((((mY : Int) + (cropRectY : Int)) * (w : Int) +
                ((mX : Int) + (cropRectX : Int))) * 4 + 1))))
              ((((p : Int) + (cropRectY : Int)) *
                  ((MX : Int) - (mX : Int) + 1 + 2 * (p : Int)) +
                  ((p : Int) + (cropRectX : Int))) * 4 + 2)
              (clampByte (readI d ((((mY : Int) + (cropRectY : Int)) * (w : Int) +
                ((mX : Int) + (cropRectX : Int))) * 4 + 2))))
              ((((p : Int) + (cropRectY : Int)) *
                  ((MX : Int) - (mX : Int) + 1 + 2 * (p : Int)) +
                  ((p : Int) + (cropRectX : Int))) * 4 + 3)
              (clampByte (readI d ((((mY : Int) + (cropRectY : Int)) * (w : Int) +
                ((mX : Int) + (cropRectX : Int))) * 4 + 3))))
          arr)
      (List.replicate
        (((MX : Int) - (mX : Int) + 1 + 2 * (p : Int)) *
          ((MY : Int) - (mY : Int) + 1 + 2 * (p : Int)) * 4).toNat 0) =
    croppedData w d mX mY (MX - mX + 1) (MY - mY + 1) p := by
  have e1 : ((MX : Int) - (mX : Int) + 1) = ((MX - mX + 1 : Nat) : Int) := by omega
  have e2 : ((MY : Int) - (mY : Int) + 1) = ((MY - mY + 1 : Nat) : Int) := by omega
  rw [e1, e2, Int.toNat_natCast, Int.toNat_natCast]
  have elen : (((MX - mX + 1 : Nat) : Int) + 2 * (p : Int)) *
      (((MY - mY + 1 : Nat) : Int) + 2 * (p : Int)) * 4 =
      ((((MX - mX + 1) + 2 * p) * ((MY - mY + 1) + 2 * p) * 4 : Nat) : Int) := by
    push_cast
    ring
  rw [elen, Int.toNat_natCast]
  set tw := MX - mX + 1 with htw
  set th := MY - mY + 1 with hth
  have hbody : (fun (arr : List Nat) (cropRectX : Nat) =>
      (List.range th).foldl
        (fun arr2 (cropRectY : Nat) =>
          setI (setI (setI (setI arr2
            ((((p : Int) + (cropRectY : Int)) * ((tw : Int) + 2 * (p : Int)) +
                ((p : Int) + (cropRectX : Int))) * 4)
            (clampByte (readI d ((((mY : Int) + (cropRectY : Int)) * (w : Int) +
              ((mX : Int) + (cropRectX : Int))) * 4))))
            ((((p : Int) + (cropRectY : Int)) * ((tw : Int) + 2 * (p : Int)) +
                ((p : Int) + (cropRectX : Int))) * 4 + 1)
            (clampByte (readI d ((((mY : Int) + (cropRectY : Int)) * (w : Int) +
              ((mX : Int) + (cropRectX : Int))) * 4 + 1))))
            ((((p : Int) + (cropRectY : Int)) * ((tw : Int) + 2 * (p : Int)) +
                ((p : Int) + (cropRectX : Int))) * 4 + 2)
            (clampByte (readI d ((((mY : Int) + (cropRectY : Int)) * (w : Int) +
              ((mX : Int) + (cropRectX : Int))) * 4 + 2))))
            ((((p : Int) + (cropRectY : Int)) * ((tw : Int) + 2 * (p : Int)) +
                ((p : Int) + (cropRectX : Int))) * 4 + 3)
            (clampByte (readI d ((((mY : Int) + (cropRectY : Int)) * (w : Int) +
              ((mX : Int) + (cropRectX : Int))) * 4 + 3))))
        arr) =
      (fun (arr : List Nat) (cropRectX : Nat) =>
        (List.range th).foldl
          (fun arr2 (cropRectY : Nat) =>
            ((((arr2.set (((p + cropRectY) * (tw + 2 * p) + (p + cropRectX)) * 4)
              (clampByte (d.getD (((mY + cropRectY) * w + (mX + cropRectX)) * 4) 0))).set
              (((p + cropRectY) * (tw + 2 * p) + (p + cropRectX)) * 4 + 1)
              (clampByte (d.getD (((mY + cropRectY) * w + (mX + cropRectX)) * 4 + 1) 0))).set
              (((p + cropRectY) * (tw + 2 * p) + (p + cropRectX)) * 4 + 2)
              (clampByte (d.getD (((mY + cropRectY) * w + (mX + cropRectX)) * 4 + 2) 0))).set
              (((p + cropRectY) * (tw + 2 * p) + (p + cropRectX)) * 4 + 3)
              (clampByte (d.getD (((mY + cropRectY) * w + (mX + cropRectX)) * 4 + 3) 0))))
          arr) := rfl
  rw [hbody]
  calc
    (List.range tw).foldl
      (fun (arr : List Nat) (cropRectX : Nat) =>
        (List.range th).foldl
          (fun arr2 (cropRectY : Nat) =>
            ((((arr2.set (((p + cropRectY) * (tw + 2 * p) + (p + cropRectX)) * 4)
              (clampByte (d.getD (((mY + cropRectY) * w + (mX + cropRectX)) * 4) 0))).set
              (((p + cropRectY) * (tw + 2 * p) + (p + cropRectX)) * 4 + 1)
              (clampByte (d.getD (((mY + cropRectY) * w + (mX + cropRectX)) * 4 + 1) 0))).set
              (((p + cropRectY) * (tw + 2 * p) + (p + cropRectX)) * 4 + 2)
              (clampByte (d.getD (((mY + cropRectY) * w + (mX + cropRectX)) * 4 + 2) 0))).set
              (((p + cropRectY) * (tw + 2 * p) + (p + cropRectX)) * 4 + 3)
              (clampByte (d.getD (((mY + cropRectY) * w + (mX + cropRectX)) * 4 + 3) 0))))
          arr)
      (List.replicate ((tw + 2 * p) * (th + 2 * p) * 4) 0) =
      (pairList tw th).foldl
        (fun (arr2 : List Nat) (q : Nat × Nat) =>
          ((((arr2.set (((p + q.2) * (tw + 2 * p) + (p + q.1)) * 4)
            (clampByte (d.getD (((mY + q.2) * w + (mX + q.1)) * 4) 0))).set
            (((p + q.2) * (tw + 2 * p) + (p + q.1)) * 4 + 1)
            (clampByte (d.getD (((mY + q.2) * w + (mX + q.1)) * 4 + 1) 0))).set
            (((p + q.2) * (tw + 2 * p) + (p + q.1)) * 4 + 2)
            (clampByte (d.getD (((mY + q.2) * w + (mX + q.1)) * 4 + 2) 0))).set
            (((p + q.2) * (tw + 2 * p) + (p + q.1)) * 4 + 3)
            (clampByte (d.getD (((mY + q.2) * w + (mX + q.1)) * 4 + 3) 0))))
        (List.replicate ((tw + 2 * p) * (th + 2 * p) * 4) 0) :=
      foldl_pairList tw th
        (fun (arr2 : List Nat) (cropRectX cropRectY : Nat) =>
          ((((arr2.set (((p + cropRectY) * (tw + 2 * p) + (p + cropRectX)) * 4)
            (clampByte (d.getD (((mY + cropRectY) * w + (mX + cropRectX)) * 4) 0))).set
            (((p + cropRectY) * (tw + 2 * p) + (p + cropRectX)) * 4 + 1)
            (clampByte (d.getD (((mY + cropRectY) * w + (mX + cropRectX)) * 4 + 1) 0))).set
            (((p + cropRectY) * (tw + 2 * p) + (p + cropRectX)) * 4 + 2)
            (clampByte (d.getD (((mY + cropRectY) * w + (mX + cropRectX)) * 4 + 2) 0))).set
            (((p + cropRectY) * (tw + 2 * p) + (p + cropRectX)) * 4 + 3)
            (clampByte (d.getD (((mY + cropRectY) * w + (mX + cropRectX)) * 4 + 3) 0))))
        (List.replicate ((tw + 2 * p) * (th + 2 * p) * 4) 0)
    _ = croppedData w d mX mY tw th p :=
      (foldl_flatMap
        (fun q : Nat × Nat =>
          (List.range 4).map (fun ch =>
            (((p + q.2) * (tw + 2 * p) + (p + q.1)) * 4 + ch,
             clampByte (d.getD (((mY + q.2) * w + (mX + q.1)) * 4 + ch) 0))))
        (fun a r => a.set r.1 r.2)
        (pairList tw th)
        (List.replicate ((tw + 2 * p) * (th + 2 * p) * 4) 0)).symm

/-- `cropImageAndAddPadding` on finite bounds with `mX ≤ MX`, `mY ≤ MY`
succeeds and returns exactly the padded image described by `croppedData`. -/
theorem cropImageAndAddPadding_eq (name : List Char) (w h : Nat) (d : List Nat)
    (mX MX mY MY p : Nat) (hX1 : mX ≤ MX) (hY1 : mY ≤ MY) :
    cropImageAndAddPadding
      (ImageFile.mk name w h d
        (CropBounds.mk (jnum mX) (jnum MX) (jnum mY) (jnum MY))) p =
    Except.ok (ImageFile.mk name ((MX - mX + 1) + 2 * p) ((MY - mY + 1) + 2 * p)
      (croppedData w d mX mY (MX - mX + 1) (MY - mY + 1) p)
      (CropBounds.mk (jnum p) (jnum (p + (MX - mX + 1) - 1)) (jnum p)
        (jnum (p + (MY - mY + 1) - 1)))) := by
  simp only [cropImageAndAddPadding, jnum]
  rw [if_neg]
  rotate_left
  · have h1 : (0 : Int) ≤ ((MX : Int) - (mX : Int) + 1 + 2 * (p : Int)) := by omega
    have h2 : (0 : Int) ≤ ((MY : Int) - (mY : Int) + 1 + 2 * (p : Int)) := by omega
    have h3 := mul_nonneg (mul_nonneg h1 h2) (by omega : (0 : Int) ≤ 4)
    omega
  rw [if_neg]
  rotate_left
  · rintro (hc | hc) <;> omega
  simp only [Except.ok.injEq, ImageFile.mk.injEq, CropBounds.mk.injEq, JNum.fin.injEq]
  refine ⟨trivial, ?_, ?_, ?_, ?_, ?_, ?_, ?_⟩
  · show ((MX : Int) - (mX : Int) + 1 + 2 * (p : Int)).toNat = MX - mX + 1 + 2 * p
    omega
  · show ((MY : Int) - (mY : Int) + 1 + 2 * (p : Int)).toNat = MY - mY + 1 + 2 * p
    omega
  · exact crop_fold_eq w d mX MX mY MY p hX1 hY1
  · exact trivial
  · show (p : Int) + ((MX : Int) - (mX : Int) + 1) - 1 = ((p + (MX - mX + 1) - 1 : Nat) : Int)
    omega
  · exact trivial
  · show (p : Int) + ((MY : Int) - (mY : Int) + 1) - 1 = ((p + (MY - mY + 1) - 1 : Nat) : Int)
    omega

/-- C1: for valid non-empty in-range bounds and any padding `p ≥ 0`,
`cropImageAndAddPadding` succeeds and returns a new image of size
`(MX-mX+1)+2p × (MY-mY+1)+2p` whose buffer is fully transparent (all four
channels zero) except that each pixel of the bounded source rectangle is
copied verbatim (all four channels) to the position offset by `p` in both
axes; its `cropBounds` is the padding-relative rectangle and its name is the
input's name. -/
theorem claimC1 (name : List Char) (w h : Nat) (d : List Nat)
    (mX MX mY MY p : Nat)
    (hX1 : mX ≤ MX) (hX2 : MX < w) (hY1 : mY ≤ MY) (hY2 : MY < h)
    (hlen : d.length = 4 * (w * h)) (hbytes : ∀ b ∈ d, b ≤ 255) :
    ∃ out : ImageFile,
      cropImageAndAddPadding
        (ImageFile.mk name w h d
          (CropBounds.mk (jnum mX) (jnum MX) (jnum mY) (jnum MY))) p = Except.ok out ∧
      out.name = name ∧
      out.width = (MX - mX + 1) + 2 * p ∧
      out.height = (MY - mY + 1) + 2 * p ∧
      out.cropBounds = CropBounds.mk (jnum p) (jnum (p + (MX - mX + 1) - 1)) (jnum p)
        (jnum (p + (MY - mY + 1) - 1)) ∧
      out.data.length = 4 * (out.width * out.height) ∧
      (∀ dx dy ch, dx < out.width → dy < out.height → ch < 4 →
        out.data[(dy * out.width + dx) * 4 + ch]? =
          if p ≤ dx ∧ dx < p + (MX - mX + 1) ∧ p ≤ dy ∧ dy < p + (MY - mY + 1) then
            d[((mY + (dy - p)) * w + (mX + (dx - p))) * 4 + ch]?
          else some 0) := by
  refine ⟨_, cropImageAndAddPadding_eq name w h d mX MX mY MY p hX1 hY1,
    rfl, rfl, rfl, rfl, ?_, ?_⟩
  · show (croppedData w d mX mY (MX - mX + 1) (MY - mY + 1) p).length = _
    rw [croppedData_length]
    show _ = 4 * (((MX - mX + 1) + 2 * p) * ((MY - mY + 1) + 2 * p))
    ring
  · intro dx dy ch hdx hdy hch
    have hdx2 : dx < (MX - mX + 1) + 2 * p := hdx
    have hdy2 : dy < (MY - mY + 1) + 2 * p := hdy
    show (croppedData w d mX mY (MX - mX + 1) (MY - mY + 1) p)[(dy *
      ((MX - mX + 1) + 2 * p) + dx) * 4 + ch]? = _
    rw [croppedData_getElem w d mX mY (MX - mX + 1) (MY - mY + 1) p dx dy ch hdx2 hdy2 hch]
    split
    · rename_i hwin
      obtain ⟨h1, h2, h3, h4⟩ := hwin
      have hsx : mX + (dx - p) < w := by omega
      have hsy : mY + (dy - p) < h := by omega
      have hidx : ((mY + (dy - p)) * w + (mX + (dx - p))) * 4 + ch < d.length := by
        rw [hlen]
        have := grid_lt hsy hsx
        omega
      rw [List.getElem?_eq_getElem hidx]
      have hgd : d.getD (((mY + (dy - p)) * w + (mX + (dx - p))) * 4 + ch) 0 =
          d[((mY + (dy - p)) * w + (mX + (dx - p))) * 4 + ch] := by
        rw [List.getD_eq_getElem?_getD, List.getElem?_eq_getElem hidx]
        rfl
      rw [hgd]
      have hv : d[((mY + (dy - p)) * w + (mX + (dx - p))) * 4 + ch] ≤ 255 :=
        hbytes _ (List.getElem_mem hidx)
      rw [clampByte, Nat.min_eq_left hv]
    · rfl

/-- C1 witness: a 1×1 fully opaque image, padding 1. -/
theorem claimC1_witness :
    ([9, 8, 7, 6] : List Nat).length = 4 * (1 * 1) ∧
    (∀ b ∈ ([9, 8, 7, 6] : List Nat), b ≤ 255) ∧
    ∃ out : ImageFile,
      cropImageAndAddPadding
        (ImageFile.mk ( "a".data) 1 1 [9, 8, 7, 6]
          (CropBounds.mk (jnum 0) (jnum 0) (jnum 0) (jnum 0))) 1 = Except.ok out ∧
      out.name = "a".data ∧
      out.width = (0 - 0 + 1) + 2 * 1 ∧
      out.height = (0 - 0 + 1) + 2 * 1 ∧
      out.cropBounds = CropBounds.mk (jnum 1) (jnum (1 + (0 - 0 + 1) - 1)) (jnum 1)
        (jnum (1 + (0 - 0 + 1) - 1)) ∧
      out.data.length = 4 * (out.width * out.height) ∧
      (∀ dx dy ch, dx < out.width → dy < out.height → ch < 4 →
        out.data[(dy * out.width + dx) * 4 + ch]? =
          if 1 ≤ dx ∧ dx < 1 + (0 - 0 + 1) ∧ 1 ≤ dy ∧ dy < 1 + (0 - 0 + 1) then
            ([9, 8, 7, 6] : List Nat)[((0 + (dy - 1)) * 1 + (0 + (dx - 1))) * 4 + ch]?
          else some 0) :=
  ⟨by decide, by decide,
    claimC1 ( "a".data) 1 1 [9, 8, 7, 6] 0 0 0 0 1
      (by decide) (by decide) (by decide) (by decide) (by decide) (by decide)⟩

/-! ## C4: empty bounds fail without corrupting the batch -/

/-- C4: cropping an image whose bounds are the empty sentinel
(`min = +∞`, `max = -∞`) fails with the thrown error (the JavaScript code
throws a `RangeError` from `new Uint8ClampedArray(Infinity)` — the spec's
`InvalidBoundsError`); a batch containing such an image never publishes any
result list (`Promise.all` fails as the throw happens synchronously), and
`onCropButtonClick` on such a state either leaves the state unchanged or
propagates the error — it can never publish a partial or corrupted
`croppedImageFiles`. -/
theorem claimC4 (img : ImageFile) (p : Nat)
    (hempty : img.cropBounds =
      CropBounds.mk JNum.posInf JNum.negInf JNum.posInf JNum.negInf) :
    cropImageAndAddPadding img p = Except.error rangeErrorMsg ∧
    (∀ files, img ∈ files → ∀ res, cropImagesAndAddPadding files p ≠ Except.ok res) ∧
    (∀ st : AppState, img ∈ st.originalImageFiles →
      p = parseIntDigits st.transparentPaddingInputValue →
      onCropButtonClick st = Except.ok st ∨ ∃ e, onCropButtonClick st = Except.error e) := by
  have herr : cropImageAndAddPadding img p = Except.error rangeErrorMsg := by
    obtain ⟨n, w, h, d, b⟩ := img
    simp only at hempty
    subst hempty
    rfl
  have hbatch : ∀ files, img ∈ files → ∀ res,
      cropImagesAndAddPadding files p ≠ Except.ok res := by
    intro files
    induction files with
    | nil =>
      intro hmem
      exact absurd hmem (List.not_mem_nil img)
    | cons f rest ih =>
      intro hmem res hok
      rw [cropImagesAndAddPadding] at hok
      rcases List.mem_cons.mp hmem with heq | hmem2
      · rw [← heq, herr] at hok
        exact Except.noConfusion hok
      · cases hcf : cropImageAndAddPadding f p with
        | error e =>
          rw [hcf] at hok
          exact Except.noConfusion hok
        | ok c =>
          rw [hcf] at hok
          cases hcr : cropImagesAndAddPadding rest p with
          | error e =>
            rw [hcr] at hok
            exact Except.noConfusion hok
          | ok cs =>
            exact ih hmem2 cs hcr
  refine ⟨herr, hbatch, ?_⟩
  intro st hmem hp
  rw [onCropButtonClick]
  split
  · exact Or.inl rfl
  · cases hres : cropImagesAndAddPadding st.originalImageFiles
        (parseIntDigits st.transparentPaddingInputValue) with
    | error e => exact Or.inr ⟨e, rfl⟩
    | ok res =>
      exact absurd hres (by rw [← hp]; exact fun hr => hbatch _ hmem res hr)

/-- C4 witness: a concrete fully transparent 1×1 image inside a batch. -/
theorem claimC4_witness :
    cropImageAndAddPadding
      (ImageFile.mk ( "t".data) 1 1 [0, 0, 0, 0]
        (CropBounds.mk JNum.posInf JNum.negInf JNum.posInf JNum.negInf)) 2 =
      Except.error rangeErrorMsg ∧
    (∀ res, cropImagesAndAddPadding
      [ImageFile.mk ( "s".data) 1 1 [1, 2, 3, 4]
        (CropBounds.mk (jnum 0) (jnum 0) (jnum 0) (jnum 0)),
       ImageFile.mk ( "t".data) 1 1 [0, 0, 0, 0]
        (CropBounds.mk JNum.posInf JNum.negInf JNum.posInf JNum.negInf)] 2 ≠
      Except.ok res) := by
  have h := claimC4
    (ImageFile.mk ( "t".data) 1 1 [0, 0, 0, 0]
      (CropBounds.mk JNum.posInf JNum.negInf JNum.posInf JNum.negInf)) 2 rfl
  exact ⟨h.1, h.2.1 _ (by decide)⟩

/-! ## C3: re-detection after crop/pad -/

theorem clampByte_eq_zero_iff (v : Nat) : clampByte v = 0 ↔ v = 0 := by
  rw [clampByte]
  omega

/-- Visibility in the cropped buffer: exactly the padding-window translates of
the visible source pixels. -/
theorem croppedData_visible (w h : Nat) (d : List Nat) (mX MX mY MY p : Nat)
    (hX1 : mX ≤ MX) (hY1 : mY ≤ MY) (hX2 : MX < w) (hY2 : MY < h)
    (hlen : d.length = 4 * (w * h)) (dx dy : Nat) :
    visiblePixel ((MX - mX + 1) + 2 * p) ((MY - mY + 1) + 2 * p)
      (croppedData w d mX mY (MX - mX + 1) (MY - mY + 1) p) dx dy ↔
    (p ≤ dx ∧ dx < p + (MX - mX + 1) ∧ p ≤ dy ∧ dy < p + (MY - mY + 1) ∧
      visiblePixel w h d (mX + (dx - p)) (mY + (dy - p))) := by
  have hsrc : ∀ sx sy : Nat, sx < w → sy < h →
      ((sy * w + sx) * 4 + 3 < d.length) := by
    intro sx sy hsx hsy
    rw [hlen]
    have := grid_lt hsy hsx
    omega
  constructor
  · rintro ⟨hdx, hdy, hal⟩
    rw [croppedData_getElem w d mX mY (MX - mX + 1) (MY - mY + 1) p dx dy 3
      hdx hdy (by omega)] at hal
    by_cases hwin : p ≤ dx ∧ dx < p + (MX - mX + 1) ∧ p ≤ dy ∧ dy < p + (MY - mY + 1)
    · rw [if_pos hwin] at hal
      obtain ⟨h1, h2, h3, h4⟩ := hwin
      have hsx : mX + (dx - p) < w := by omega
      have hsy : mY + (dy - p) < h := by omega
      refine ⟨h1, h2, h3, h4, hsx, hsy, ?_⟩
      have hidx := hsrc _ _ hsx hsy
      rw [List.getElem?_eq_getElem hidx]
      intro hc
      have hv : d[((mY + (dy - p)) * w + (mX + (dx - p))) * 4 + 3] = 0 := by
        injection hc
      apply hal
      rw [List.getD_eq_getElem?_getD, List.getElem?_eq_getElem hidx]
      simp [hv, clampByte]
    · rw [if_neg hwin] at hal
      exact absurd rfl hal
  · rintro ⟨h1, h2, h3, h4, hsx, hsy, hsal⟩
    refine ⟨by omega, by omega, ?_⟩
    rw [croppedData_getElem w d mX mY (MX - mX + 1) (MY - mY + 1) p dx dy 3
      (by omega) (by omega) (by omega), if_pos ⟨h1, h2, h3, h4⟩]
    intro hc
    have hcv : clampByte (d.getD (((mY + (dy - p)) * w + (mX + (dx - p))) * 4 + 3) 0) = 0 := by
      injection hc
    rw [clampByte_eq_zero_iff] at hcv
    have hidx := hsrc _ _ hsx hsy
    rw [List.getD_eq_getElem?_getD, List.getElem?_eq_getElem hidx] at hcv
    apply hsal
    rw [List.getElem?_eq_getElem hidx]
    exact congrArg some hcv

/-- C3: re-running `getCropBounds` on the output of `cropImageAndAddPadding`
(on an image whose stored bounds came from `getCropBounds` and which has at
least one visible pixel) yields exactly
`{minX = p, maxX = p + w' - 1, minY = p, maxY = p + h' - 1}` where `w', h'`
are the unpadded bounds dimensions. -/
theorem claimC3 (name : List Char) (w h : Nat) (d : List Nat) (p : Nat)
    (hlen : d.length = 4 * (w * h))
    (hvis : ∃ q : Nat × Nat, visiblePixel w h d q.1 q.2) :
    ∃ out : ImageFile, ∃ mx Mx my My : Nat,
      getCropBounds w h d = CropBounds.mk (jnum mx) (jnum Mx) (jnum my) (jnum My) ∧
      cropImageAndAddPadding
        (ImageFile.mk name w h d (getCropBounds w h d)) p = Except.ok out ∧
      getCropBounds out.width out.height out.data =
        CropBounds.mk (jnum p) (jnum (p + (Mx - mx + 1) - 1)) (jnum p)
          (jnum (p + (My - my + 1) - 1)) := by
  obtain ⟨mx, Mx, my, My, hb, h1, h2, h3, h4, hcont, hax, haX, hay, haY⟩ :=
    getCropBounds_spec w h d hvis
  have hcrop := cropImageAndAddPadding_eq name w h d mx Mx my My p h1 h2
  refine ⟨_, mx, Mx, my, My, hb, by rw [hb]; exact hcrop, ?_⟩
  show getCropBounds ((Mx - mx + 1) + 2 * p) ((My - my + 1) + 2 * p)
    (croppedData w d mx my (Mx - mx + 1) (My - my + 1) p) =
    CropBounds.mk (jnum p) (jnum (p + (Mx - mx + 1) - 1)) (jnum p)
      (jnum (p + (My - my + 1) - 1))
  have hvc := croppedData_visible w h d mx Mx my My p h1 h2 h3 h4 hlen
  obtain ⟨q0, hq0⟩ := hvis
  obtain ⟨hc1, hc2, hc3, hc4⟩ := hcont q0.1 q0.2 hq0
  have hviscrop : ∃ q : Nat × Nat,
      visiblePixel ((Mx - mx + 1) + 2 * p) ((My - my + 1) + 2 * p)
        (croppedData w d mx my (Mx - mx + 1) (My - my + 1) p) q.1 q.2 := by
    refine ⟨(p + (q0.1 - mx), p + (q0.2 - my)), (hvc _ _).mpr
      ⟨by omega, by omega, by omega, by omega, ?_⟩⟩
    have ex : mx + ((p + (q0.1 - mx)) - p) = q0.1 := by omega
    have ey : my + ((p + (q0.2 - my)) - p) = q0.2 := by omega
    rw [ex, ey]
    exact hq0
  obtain ⟨mx2, Mx2, my2, My2, hb2, _, _, _, _, hcont2, hax2, haX2, hay2, haY2⟩ :=
    getCropBounds_spec _ _ _ hviscrop
  rw [hb2]
  obtain ⟨ya, hya⟩ := hax2
  obtain ⟨yb, hyb⟩ := haX2
  obtain ⟨xa, hxa⟩ := hay2
  obtain ⟨xb, hxb⟩ := haY2
  have hya2 := (hvc _ _).mp hya
  have hyb2 := (hvc _ _).mp hyb
  have hxa2 := (hvc _ _).mp hxa
  have hxb2 := (hvc _ _).mp hxb
  obtain ⟨y0, hy0⟩ := hax
  obtain ⟨hy0a, hy0b, hy0c, hy0d⟩ := hcont mx y0 hy0
  have hpvisx : visiblePixel ((Mx - mx + 1) + 2 * p) ((My - my + 1) + 2 * p)
      (croppedData w d mx my (Mx - mx + 1) (My - my + 1) p) p (p + (y0 - my)) := by
    refine (hvc _ _).mpr ⟨by omega, by omega, by omega, by omega, ?_⟩
    have ex : mx + (p - p) = mx := by omega
    have ey : my + ((p + (y0 - my)) - p) = y0 := by omega
    rw [ex, ey]
    exact hy0
  obtain ⟨yX, hyX⟩ := haX
  obtain ⟨hyXa, hyXb, hyXc, hyXd⟩ := hcont Mx yX hyX
  have hpvisX : visiblePixel ((Mx - mx + 1) + 2 * p) ((My - my + 1) + 2 * p)
      (croppedData w d mx my (Mx - mx + 1) (My - my + 1) p) (p + (Mx - mx)) (p + (yX - my)) := by
    refine (hvc _ _).mpr ⟨by omega, by omega, by omega, by omega, ?_⟩
    have ex : mx + ((p + (Mx - mx)) - p) = Mx := by omega
    have ey : my + ((p + (yX - my)) - p) = yX := by omega
    rw [ex, ey]
    exact hyX
  obtain ⟨x0, hx0⟩ := hay
  obtain ⟨hx0a, hx0b, hx0c, hx0d⟩ := hcont x0 my hx0
  have hpvisy : visiblePixel ((Mx - mx + 1) + 2 * p) ((My - my + 1) + 2 * p)
      (croppedData w d mx my (Mx - mx + 1) (My - my + 1) p) (p + (x0 - mx)) p := by
    refine (hvc _ _).mpr ⟨by omega, by omega, by omega, by omega, ?_⟩
    have ex : mx + ((p + (x0 - mx)) - p) = x0 := by omega
    have ey : my + (p - p) = my := by omega
    rw [ex, ey]
    exact hx0
  obtain ⟨xY, hxY⟩ := haY
  obtain ⟨hxYa, hxYb, hxYc, hxYd⟩ := hcont xY My hxY
  have hpvisY : visiblePixel ((Mx - mx + 1) + 2 * p) ((My - my + 1) + 2 * p)
      (croppedData w d mx my (Mx - mx + 1) (My - my + 1) p) (p + (xY - mx)) (p + (My - my)) := by
    refine (hvc _ _).mpr ⟨by omega, by omega, by omega, by omega, ?_⟩
    have ex : mx + ((p + (xY - mx)) - p) = xY := by omega
    have ey : my + ((p + (My - my)) - p) = My := by omega
    rw [ex, ey]
    exact hxY
  have hlow := hcont2 p (p + (y0 - my)) hpvisx
  have hhiX := hcont2 (p + (Mx - mx)) (p + (yX - my)) hpvisX
  have hlowy := hcont2 (p + (x0 - mx)) p hpvisy
  have hhiY := hcont2 (p + (xY - mx)) (p + (My - my)) hpvisY
  have hmx2 : mx2 = p := by omega
  have hMx2 : Mx2 = p + (Mx - mx + 1) - 1 := by omega
  have hmy2 : my2 = p := by omega
  have hMy2 : My2 = p + (My - my + 1) - 1 := by omega
  rw [hmx2, hMx2, hmy2, hMy2]

/-- C3 witness: a 2×1 image with one visible pixel, padding 2. -/
theorem claimC3_witness :
    ∃ out : ImageFile, ∃ mx Mx my My : Nat,
      getCropBounds 2 1 [0, 0, 0, 0, 5, 6, 7, 8] =
        CropBounds.mk (jnum mx) (jnum Mx) (jnum my) (jnum My) ∧
      cropImageAndAddPadding
        (ImageFile.mk ( "b".data) 2 1 [0, 0, 0, 0, 5, 6, 7, 8]
          (getCropBounds 2 1 [0, 0, 0, 0, 5, 6, 7, 8])) 2 = Except.ok out ∧
      getCropBounds out.width out.height out.data =
        CropBounds.mk (jnum 2) (jnum (2 + (Mx - mx + 1) - 1)) (jnum 2)
          (jnum (2 + (My - my + 1) - 1)) :=
  claimC3 ( "b".data) 2 1 [0, 0, 0, 0, 5, 6, 7, 8] 2 (by decide) ⟨(1, 0), by decide⟩

/-! ## C8: ordering of the decoded batch -/

theorem jsStrLt_irrefl (a : List Char) : jsStrLt a a = false := by
  induction a with
  | nil => rfl
  | cons c rest ih =>
    rw [jsStrLt]
    simp [ih]

theorem jsStrLt_asymm (a b : List Char) (h : jsStrLt a b = true) :
    jsStrLt b a = false := by
  induction a generalizing b with
  | nil =>
    cases b with
    | nil => exact absurd h (by rw [jsStrLt]; exact Bool.false_ne_true)
    | cons c rest => rfl
  | cons c rest ih =>
    cases b with
    | nil => exact absurd h (by rw [jsStrLt]; exact Bool.false_ne_true)
    | cons c2 rest2 =>
      rw [jsStrLt] at h ⊢
      by_cases h1 : c < c2
      · have h2 : ¬ c2 < c := by
          intro h3
          exact absurd (lt_trans h1 h3) (lt_irrefl c)
        rw [if_neg h2, if_pos h1]
      · rw [if_neg h1] at h
        by_cases h2 : c2 < c
        · rw [if_pos h2] at h
          exact absurd h Bool.false_ne_true
        · rw [if_neg h2] at h
          rw [if_neg h2, if_neg h1]
          exact ih rest2 h

theorem jsStrLt_trans (a b c : List Char) (h1 : jsStrLt a b = true)
    (h2 : jsStrLt b c = true) : jsStrLt a c = true := by
  induction a generalizing b c with
  | nil =>
    cases c with
    | nil =>
      cases b with
      | nil => exact h1
      | cons x xs => exact absurd h2 (by rw [jsStrLt]; exact Bool.false_ne_true)
    | cons x xs => rfl
  | cons x xs ih =>
    cases b with
    | nil => exact absurd h1 (by rw [jsStrLt]; exact Bool.false_ne_true)
    | cons y ys =>
      cases c with
      | nil => exact absurd h2 (by rw [jsStrLt]; exact Bool.false_ne_true)
      | cons z zs =>
        rw [jsStrLt] at h1 h2 ⊢
        by_cases hxy : x < y
        · by_cases hyz : y < z
          · rw [if_pos (lt_trans hxy hyz)]
          · rw [if_neg hyz] at h2
            by_cases hzy : z < y
            · rw [if_pos hzy] at h2
              exact absurd h2 Bool.false_ne_true
            · have hyez : y = z := le_antisymm (le_of_not_lt hzy) (le_of_not_lt hyz)
              rw [← hyez, if_pos hxy]
        · rw [if_neg hxy] at h1
          by_cases hyx : y < x
          · rw [if_pos hyx] at h1
            exact absurd h1 Bool.false_ne_true
          · have hxey : x = y := le_antisymm (le_of_not_lt hyx) (le_of_not_lt hxy)
            rw [if_neg hyx] at h1
            subst hxey
            by_cases hyz : x < z
            · rw [if_pos hyz]
            · rw [if_neg hyz] at h2 ⊢
              by_cases hzy : z < x
              · rw [if_pos hzy] at h2
                exact absurd h2 Bool.false_ne_true
              · rw [if_neg hzy] at h2 ⊢
                exact ih ys zs h1 h2


theorem jsStrLt_connex (a b : List Char) (h1 : jsStrLt a b = false)
    (h2 : jsStrLt b a = false) : a = b := by
  induction a generalizing b with
  | nil =>
    cases b with
    | nil => rfl
    | cons c rest =>
      rw [jsStrLt] at h1
      exact Bool.noConfusion h1
  | cons c rest ih =>
    cases b with
    | nil =>
      rw [jsStrLt] at h2
      exact Bool.noConfusion h2
    | cons c2 rest2 =>
      rw [jsStrLt] at h1 h2
      by_cases hc : c < c2
      · rw [if_pos hc] at h1
        exact Bool.noConfusion h1
      · by_cases hc2 : c2 < c
        · rw [if_pos hc2] at h2
          exact Bool.noConfusion h2
        · rw [if_neg hc, if_neg hc2] at h1
          rw [if_neg hc2, if_neg hc] at h2
          have hce : c = c2 := le_antisymm (le_of_not_lt hc2) (le_of_not_lt hc)
          rw [hce, ih rest2 h1 h2]

theorem compareStrings_le_iff (a b : List Char) :
    decide (compareStrings a b ≤ 0) = !(jsStrLt b a) := by
  rw [compareStrings]
  by_cases h1 : jsStrLt a b
  · rw [if_pos h1, jsStrLt_asymm a b h1]
    decide
  · rw [if_neg h1]
    by_cases h2 : jsStrLt b a
    · rw [if_pos h2, h2]
      decide
    · rw [if_neg h2]
      simp only [Bool.not_eq_true] at h2
      rw [h2]
      decide

theorem sortLe_trans (a b c : ImageFile)
    (h1 : decide (compareStrings a.name b.name ≤ 0) = true)
    (h2 : decide (compareStrings b.name c.name ≤ 0) = true) :
    decide (compareStrings a.name c.name ≤ 0) = true := by
  rw [compareStrings_le_iff, Bool.not_eq_true'] at h1 h2 ⊢
  by_contra hlt
  rw [Bool.not_eq_false] at hlt
  cases hbc : jsStrLt b.name c.name with
  | true =>
    have := jsStrLt_trans b.name c.name a.name hbc hlt
    rw [this] at h1
    exact Bool.noConfusion h1
  | false =>
    have hbceq : b.name = c.name := jsStrLt_connex b.name c.name hbc h2
    rw [← hbceq] at hlt
    rw [hlt] at h1
    exact Bool.noConfusion h1

theorem sortLe_total (a b : ImageFile) :
    (decide (compareStrings a.name b.name ≤ 0) ||
      decide (compareStrings b.name a.name ≤ 0)) = true := by
  rw [compareStrings_le_iff, compareStrings_le_iff]
  cases hab : jsStrLt a.name b.name with
  | true =>
    rw [jsStrLt_asymm a.name b.name hab]
    rfl
  | false =>
    rw [Bool.or_comm]
    rfl

theorem onZipFileUploadSort_sorted (files : List ImageFile) :
    List.Pairwise (fun a b => jsStrLt a.name b.name = true ∨ a.name = b.name)
      (onZipFileUploadSort files) := by
  have hs := @List.sorted_mergeSort ImageFile
    (fun a b => decide (compareStrings a.name b.name ≤ 0))
    sortLe_trans sortLe_total files
  refine hs.imp ?_
  intro a b h
  rw [compareStrings_le_iff, Bool.not_eq_true'] at h
  cases hab : jsStrLt a.name b.name with
  | true => exact Or.inl rfl
  | false => exact Or.inr (jsStrLt_connex a.name b.name hab h)

theorem onZipFileUploadSort_perm (files : List ImageFile) :
    (onZipFileUploadSort files).Perm files :=
  List.mergeSort_perm files _

theorem onZipFileUploadSort_unique (l1 l2 : List ImageFile)
    (hperm : l1.Perm l2) (hnd : (l1.map ImageFile.name).Nodup) :
    onZipFileUploadSort l1 = onZipFileUploadSort l2 := by
  haveI : IsAntisymm ImageFile
      (fun a b => jsStrLt a.name b.name = true ∨ a = b) := by
    constructor
    intro a b hab hba
    rcases hab with h | h
    · rcases hba with h2 | h2
      · rw [jsStrLt_asymm a.name b.name h] at h2
        exact Bool.noConfusion h2
      · exact h2.symm
    · exact h
  have hp1 := onZipFileUploadSort_perm l1
  have hp2 := onZipFileUploadSort_perm l2
  have hnd1 : ((onZipFileUploadSort l1).map ImageFile.name).Nodup :=
    (hp1.map ImageFile.name).symm.nodup hnd
  have hnd2 : ((onZipFileUploadSort l2).map ImageFile.name).Nodup :=
    ((hp2.map ImageFile.name).symm.nodup ((hperm.map ImageFile.name).nodup hnd))
  have hpne1 : List.Pairwise (fun a b : ImageFile => a.name ≠ b.name)
      (onZipFileUploadSort l1) := List.pairwise_map.mp hnd1
  have hpne2 : List.Pairwise (fun a b : ImageFile => a.name ≠ b.name)
      (onZipFileUploadSort l2) := List.pairwise_map.mp hnd2
  have hs1 : List.Sorted (fun a b : ImageFile =>
      jsStrLt a.name b.name = true ∨ a = b) (onZipFileUploadSort l1) := by
    refine ((onZipFileUploadSort_sorted l1).and hpne1).imp ?_
    intro a b hab
    rcases hab with ⟨h | h, hne⟩
    · exact Or.inl h
    · exact absurd h hne
  have hs2 : List.Sorted (fun a b : ImageFile =>
      jsStrLt a.name b.name = true ∨ a = b) (onZipFileUploadSort l2) := by
    refine ((onZipFileUploadSort_sorted l2).and hpne2).imp ?_
    intro a b hab
    rcases hab with ⟨h | h, hne⟩
    · exact Or.inl h
    · exact absurd h hne
  exact List.eq_of_perm_of_sorted (hp1.trans (hperm.trans hp2.symm)) hs1 hs2

theorem cropImagesAndAddPadding_forall2 (files : List ImageFile) (p : Nat)
    (out : List ImageFile)
    (hok : cropImagesAndAddPadding files p = Except.ok out) :
    List.Forall₂ (fun f o => cropImageAndAddPadding f p = Except.ok o)
      files out := by
  induction files generalizing out with
  | nil =>
    have hok2 : Except.ok ([] : List ImageFile) = Except.ok out := hok
    injection hok2 with h
    rw [← h]
    exact List.Forall₂.nil
  | cons f rest ih =>
    rw [cropImagesAndAddPadding] at hok
    cases hcf : cropImageAndAddPadding f p with
    | error e =>
      rw [hcf] at hok
      exact Except.noConfusion hok
    | ok c =>
      rw [hcf] at hok
      cases hcr : cropImagesAndAddPadding rest p with
      | error e =>
        rw [hcr] at hok
        exact Except.noConfusion hok
      | ok cs =>
        rw [hcr] at hok
        injection hok with h
        rw [← h]
        exact List.Forall₂.cons hcf (ih cs hcr)

/-- C8: after a zip upload the stored batch is the merge sort of the decoded
images by `compareStrings` on names: it is a permutation of the decoded list,
it is sorted in lexicographic name order, and it is independent of the
completion order of the per-entry decode tasks (any permutation of a
duplicate-free decoded list sorts to the same batch); and
`cropImagesAndAddPadding` preserves this order, producing exactly one output
per input, pointwise in the same order. -/
theorem claimC8 (files : List ImageFile) (p : Nat) :
    (onZipFileUploadSort files).Perm files ∧
    List.Pairwise (fun a b => jsStrLt a.name b.name = true ∨ a.name = b.name)
      (onZipFileUploadSort files) ∧
    (∀ files2, files.Perm files2 → (files.map ImageFile.name).Nodup →
      onZipFileUploadSort files = onZipFileUploadSort files2) ∧
    (∀ out, cropImagesAndAddPadding files p = Except.ok out →
      List.Forall₂ (fun f o => cropImageAndAddPadding f p = Except.ok o)
        files out ∧ out.length = files.length) := by
  refine ⟨onZipFileUploadSort_perm files, onZipFileUploadSort_sorted files,
    fun files2 hp hnd => onZipFileUploadSort_unique files files2 hp hnd,
    fun out hok => ?_⟩
  have hf := cropImagesAndAddPadding_forall2 files p out hok
  exact ⟨hf, hf.length_eq.symm⟩

/-- C8 witness: two concrete one-pixel images named `b` and `a`; sorting the
batch is independent of the arrival order, and the batch crop succeeds with
one pointwise result per input. -/
theorem claimC8_witness :
    onZipFileUploadSort
      [ImageFile.mk ( "b".data) 1 1 [1, 2, 3, 4]
          (CropBounds.mk (JNum.fin 0) (JNum.fin 0) (JNum.fin 0) (JNum.fin 0)),
       ImageFile.mk ( "a".data) 1 1 [5, 6, 7, 8]
          (CropBounds.mk (JNum.fin 0) (JNum.fin 0) (JNum.fin 0) (JNum.fin 0))] =
    onZipFileUploadSort
      [ImageFile.mk ( "a".data) 1 1 [5, 6, 7, 8]
          (CropBounds.mk (JNum.fin 0) (JNum.fin 0) (JNum.fin 0) (JNum.fin 0)),
       ImageFile.mk ( "b".data) 1 1 [1, 2, 3, 4]
          (CropBounds.mk (JNum.fin 0) (JNum.fin 0) (JNum.fin 0) (JNum.fin 0))] ∧
    List.Forall₂
      (fun f o => cropImageAndAddPadding f 0 = Except.ok o)
      [ImageFile.mk ( "b".data) 1 1 [1, 2, 3, 4]
          (CropBounds.mk (JNum.fin 0) (JNum.fin 0) (JNum.fin 0) (JNum.fin 0)),
       ImageFile.mk ( "a".data) 1 1 [5, 6, 7, 8]
          (CropBounds.mk (JNum.fin 0) (JNum.fin 0) (JNum.fin 0) (JNum.fin 0))]
      [ImageFile.mk ( "b".data) 1 1 [1, 2, 3, 4]
          (CropBounds.mk (JNum.fin 0) (JNum.fin 0) (JNum.fin 0) (JNum.fin 0)),
       ImageFile.mk ( "a".data) 1 1 [5, 6, 7, 8]
          (CropBounds.mk (JNum.fin 0) (JNum.fin 0) (JNum.fin 0) (JNum.fin 0))] := by
  refine ⟨(claimC8
      [ImageFile.mk ( "b".data) 1 1 [1, 2, 3, 4]
          (CropBounds.mk (JNum.fin 0) (JNum.fin 0) (JNum.fin 0) (JNum.fin 0)),
       ImageFile.mk ( "a".data) 1 1 [5, 6, 7, 8]
          (CropBounds.mk (JNum.fin 0) (JNum.fin 0) (JNum.fin 0) (JNum.fin 0))]
      0).2.2.1
      [ImageFile.mk ( "a".data) 1 1 [5, 6, 7, 8]
          (CropBounds.mk (JNum.fin 0) (JNum.fin 0) (JNum.fin 0) (JNum.fin 0)),
       ImageFile.mk ( "b".data) 1 1 [1, 2, 3, 4]
          (CropBounds.mk (JNum.fin 0) (JNum.fin 0) (JNum.fin 0) (JNum.fin 0))]
      (by decide) (by decide),
    ((claimC8
      [ImageFile.mk ( "b".data) 1 1 [1, 2, 3, 4]
          (CropBounds.mk (JNum.fin 0) (JNum.fin 0) (JNum.fin 0) (JNum.fin 0)),
       ImageFile.mk ( "a".data) 1 1 [5, 6, 7, 8]
          (CropBounds.mk (JNum.fin 0) (JNum.fin 0) (JNum.fin 0) (JNum.fin 0))]
      0).2.2.2
      [ImageFile.mk ( "b".data) 1 1 [1, 2, 3, 4]
          (CropBounds.mk (JNum.fin 0) (JNum.fin 0) (JNum.fin 0) (JNum.fin 0)),
       ImageFile.mk ( "a".data) 1 1 [5, 6, 7, 8]
          (CropBounds.mk (JNum.fin 0) (JNum.fin 0) (JNum.fin 0) (JNum.fin 0))]
      (by rfl)).1⟩
